import Mathlib

/-!
# Natron, `Gui/AnimationModuleTreeView.cpp`

A shallow embedding of the animation-module tree view and of its selection
model, and the properties of it that are settled against the code.

Two views of the Qt item tree are used.

* The functions that only read the tree (visibility, bottom row, heights,
  selection propagation) run over a finite rose tree `TreeItem`.  An item is
  designated by its position `ItemPtr`, written leaf first: the row of the item
  in its parent, then the position of the parent.  `[]` is the null pointer
  (and the invalid `QModelIndex`), so `QTreeWidgetItem::parent()` and
  `QModelIndex::parent()` are the tail of the position.
* The functions that edit the tree (`onNodeAdded`, `onNodeAboutToBeRemoved`,
  `reparentItem`) run over a pointer heap `TreeWidget`, where every
  `QTreeWidgetItem` has a parent pointer and a list of child pointers.
-/

namespace Natron

/-! ## Types shared by both views -/

/-- Values of `AnimatedItemTypeEnum`, the context type stored in each row under
`QT_ROLE_CONTEXT_TYPE`. -/
inductive AnimatedItemTypeEnum where
  | eAnimatedItemTypeCommon
  | eAnimatedItemTypeReader
  | eAnimatedItemTypeRetime
  | eAnimatedItemTypeTimeOffset
  | eAnimatedItemTypeFrameRange
  | eAnimatedItemTypeGroup
  | eAnimatedItemTypeTableItemRoot
  | eAnimatedItemTypeTableItemAnimation
  | eAnimatedItemTypeKnobRoot
  | eAnimatedItemTypeKnobView
  | eAnimatedItemTypeKnobDim
  deriving DecidableEq, Repr

open AnimatedItemTypeEnum

/-- Handle of a node animation wrapper (`NodeAnimPtr` when non-null). -/
structure NodeAnim where
  id : Nat
  deriving DecidableEq, Repr

/-- Table-item animation wrapper with the node returned by
`TableItemAnim::getNode()`. -/
structure TableItemAnim where
  id : Nat
  getNode : Option NodeAnim
  deriving DecidableEq, Repr

/-- Holder of a knob, as seen through `toTableItemAnim` and `toNodeAnim`. -/
inductive AnimItemHolder where
  | tableItem (t : TableItemAnim)
  | node (n : NodeAnim)
  | other
  deriving DecidableEq, Repr

/-- Knob animation wrapper with the holder returned by `KnobAnim::getHolder()`. -/
structure KnobAnim where
  id : Nat
  getHolder : AnimItemHolder
  deriving DecidableEq, Repr

/-- Downcast `toTableItemAnim(holder)`. -/
def toTableItemAnim : AnimItemHolder → Option TableItemAnim
  | .tableItem t => some t
  | _ => none

/-- Downcast `toNodeAnim(holder)`. -/
def toNodeAnim : AnimItemHolder → Option NodeAnim
  | .node n => some n
  | _ => none

/-- Return value and out-parameters of `AnimationModule::findItem`. -/
structure FindItemResult where
  found : Bool
  type : AnimatedItemTypeEnum
  isKnob : Option KnobAnim
  isTableItem : Option TableItemAnim
  isNodeItem : Option NodeAnim
  view : Int
  dim : Int
  deriving DecidableEq, Repr

/-- Integer rectangle `QRect(x, y, w, h)`. -/
structure QRect where
  x : Int
  y : Int
  w : Int
  h : Int
  deriving DecidableEq, Repr

/-- Accessor `QRect::top()`. -/
def QRect.top (r : QRect) : Int := r.y

/-- Accessor `QRect::bottom()`, Qt's convention `y + h - 1`. -/
def QRect.bottom (r : QRect) : Int := r.y + r.h - 1

/-- Accessor `QRect::height()`. -/
def QRect.height (r : QRect) : Int := r.h

/-! ## The read-only view: a finite rose tree -/

/-- A row of the tree widget with its hidden and expanded state and its child
rows in order. -/
inductive TreeItem where
  | mk (hidden expanded : Bool) (children : List TreeItem)

/-- State read by `QTreeWidgetItem::isHidden()`. -/
def TreeItem.isHidden : TreeItem → Bool
  | .mk h _ _ => h

/-- State read by `QTreeWidgetItem::isExpanded()`. -/
def TreeItem.isExpanded : TreeItem → Bool
  | .mk _ e _ => e

/-- Child rows, `child(0) .. child(childCount() - 1)`. -/
def TreeItem.children : TreeItem → List TreeItem
  | .mk _ _ cs => cs

/-- Position of an item, leaf first; `[]` is the null pointer and the invalid
model index. -/
abbrev ItemPtr := List Nat

/-- Child rows of the item at a position; the position `[]` stands for the
invisible root, whose children are the top-level items. -/
def childrenOf (top : List TreeItem) : ItemPtr → List TreeItem
  | [] => top
  | row :: parent =>
    match (childrenOf top parent)[row]? with
    | some it => it.children
    | none => []

/-- The item a pointer designates, `none` for the null pointer and for a
position that is not in the tree. -/
def itemAt (top : List TreeItem) : ItemPtr → Option TreeItem
  | [] => none
  | row :: parent => (childrenOf top parent)[row]?

/-- Function `isItemVisibleRecursiveInternal(item, checkExpand)`. -/
def isItemVisibleRecursiveInternal (top : List TreeItem) : ItemPtr → Bool → Bool
  | [], _ => false
  | row :: parent, checkExpand =>
    match itemAt top (row :: parent) with
    | none => false
    | some it =>
      if it.isHidden then false
      else if checkExpand && !it.isExpanded then false
      else if parent ≠ [] then isItemVisibleRecursiveInternal top parent true
      else true

/-- Method `AnimationModuleTreeView::isItemVisibleRecursive`. -/
def isItemVisibleRecursive (top : List TreeItem) (item : ItemPtr) : Bool :=
  isItemVisibleRecursiveInternal top item false

/-- Proper ancestors of a position, nearest first: the parent chain up to a
top-level item. -/
def properAncestors : ItemPtr → List ItemPtr
  | [] => []
  | _ :: parent => if parent = [] then [] else parent :: properAncestors parent

/-- Hidden state of the item at a position (false where there is no item). -/
def hiddenAt (top : List TreeItem) (p : ItemPtr) : Bool :=
  match itemAt top p with
  | some it => it.isHidden
  | none => false

/-- Expanded state of the item at a position (false where there is no item). -/
def expandedAt (top : List TreeItem) (p : ItemPtr) : Bool :=
  match itemAt top p with
  | some it => it.isExpanded
  | none => false

/-- Row of the last child that is not hidden, scanning `row, row + 1, ..`;
the loop of `lastVisibleChild` finds the same child from the end. -/
def lastVisibleRow (row : Nat) : List TreeItem → Option Nat
  | [] => none
  | c :: cs =>
    match lastVisibleRow (row + 1) cs with
    | some r => some r
    | none => if c.isHidden then none else some row

/-- Method `AnimationModuleTreeView::lastVisibleChild`. -/
def lastVisibleChild (top : List TreeItem) (item : ItemPtr) : ItemPtr :=
  match lastVisibleRow 0 (childrenOf top item) with
  | some r => r :: item
  | none => item

/-- Method `AnimationModuleTreeView::getHeightForItemAndChildren`; `none` when
the pointer designates no item. -/
def getHeightForItemAndChildren (top : List TreeItem) (visualItemRect : ItemPtr → QRect)
    (item : ItemPtr) : Option Int :=
  match itemAt top item with
  | none => none
  | some it =>
    if !it.isExpanded then
      some ((visualItemRect item).height + 1)
    else
      let lastChild := lastVisibleChild top item
      let lastChild :=
        if decide ((childrenOf top lastChild).length > 0) && expandedAt top lastChild then
          lastVisibleChild top lastChild
        else lastChild
      let topY := (visualItemRect item).top
      let bottomY := (visualItemRect lastChild).bottom
      some ((bottomY - topY) + 1)

mutual
/-- Function `getTreeBottomItemInternal(item)` for the item at position `ptr`. -/
def getTreeBottomItemInternal (ptr : ItemPtr) : TreeItem → Option ItemPtr
  | .mk hidden expanded children =>
    if hidden then none
    else if children.length = 0 then some ptr
    else if !expanded then some ptr
    else
      match getTreeBottomItemLoop ptr 0 children with
      | some r => some r
      | none => some ptr
/-- The loop `for (i = n - 1; i >= 0; --i)` over the rows `row, row + 1, ..`
of the item at `ptr`: the result for the last row that gives one. -/
def getTreeBottomItemLoop (ptr : ItemPtr) (row : Nat) : List TreeItem → Option ItemPtr
  | [] => none
  | c :: cs =>
    match getTreeBottomItemLoop ptr (row + 1) cs with
    | some r => some r
    | none => getTreeBottomItemInternal (row :: ptr) c
end

/-- Method `AnimationModuleTreeView::getTreeBottomItem`. -/
def getTreeBottomItem (top : List TreeItem) : Option ItemPtr :=
  if top.length ≤ 0 then none
  else getTreeBottomItemLoop [] 0 top

/-- Method `AnimationModuleTreeView::getTreeBottomYWidgetCoords`. -/
def getTreeBottomYWidgetCoords (top : List TreeItem) (visualItemRect : ItemPtr → QRect) : Int :=
  match getTreeBottomItem top with
  | none => 0
  | some item => (visualItemRect item).bottom

mutual
/-- Rows of the subtree of the item at `ptr` in display order (depth-first,
parent before children). -/
def displayOrderItem (ptr : ItemPtr) : TreeItem → List ItemPtr
  | .mk _ _ children => ptr :: displayOrderRows ptr 0 children
/-- Display order of the rows `row, row + 1, ..` below `ptr` and their subtrees. -/
def displayOrderRows (ptr : ItemPtr) (row : Nat) : List TreeItem → List ItemPtr
  | [] => []
  | c :: cs => displayOrderItem (row :: ptr) c ++ displayOrderRows ptr (row + 1) cs
end

/-- All rows of the tree in display order. -/
def displayOrder (top : List TreeItem) : List ItemPtr :=
  displayOrderRows [] 0 top

/-- A row is visible when it is not hidden and every proper ancestor is not
hidden and is expanded. -/
def isVisibleRow (top : List TreeItem) (p : ItemPtr) : Bool :=
  !hiddenAt top p && (properAncestors p).all (fun a => !hiddenAt top a && expandedAt top a)

/-- Visible rows of the tree in display order. -/
def visibleRows (top : List TreeItem) : List ItemPtr :=
  (displayOrder top).filter (isVisibleRow top)

/-- Every row from `p` upwards is not hidden and is expanded (true for the
invisible root `[]`): the rows directly below `p` are laid out. -/
def openAt (top : List TreeItem) (p : ItemPtr) : Bool :=
  (properAncestors (0 :: p)).all (fun a => !hiddenAt top a && expandedAt top a)

mutual
/-- Bottom-most visible row of the subtree of the item at `ptr`, following the
words of the specification: descend into the last child that is not hidden for
as long as the current item is expanded and has such a child. -/
def bottomMostVisibleRow (ptr : ItemPtr) : TreeItem → ItemPtr
  | .mk _ expanded children =>
    if expanded then
      match bottomMostVisibleRowLoop ptr 0 children with
      | some r => r
      | none => ptr
    else ptr
/-- Descent of `bottomMostVisibleRow` into the last row, among `row, row + 1, ..`,
that is not hidden. -/
def bottomMostVisibleRowLoop (ptr : ItemPtr) (row : Nat) : List TreeItem → Option ItemPtr
  | [] => none
  | c :: cs =>
    match bottomMostVisibleRowLoop ptr (row + 1) cs with
    | some r => some r
    | none => if c.isHidden then none else some (bottomMostVisibleRow (row :: ptr) c)
end

/-! ## The selection model -/

/-- The bits of `QItemSelectionModel::SelectionFlags`. -/
structure SelectionFlags where
  clear : Bool
  select : Bool
  deselect : Bool
  toggle : Bool
  current : Bool
  rows : Bool
  columns : Bool
  deriving DecidableEq, Repr

/-- A `QItemSelection`, as the list of the cells of its ranges.  The view has a
single column, so a cell is a model index; `[]` stands for an invalid index. -/
abbrev QItemSelection := List ItemPtr

/-- Test `QItemSelection::contains(index)`. -/
def QItemSelection.containsIndex (selection : QItemSelection) (index : ItemPtr) : Bool :=
  decide (index ≠ []) && decide (index ∈ selection)

/-- Call `QItemSelection::select(index, index)`: appends the one-cell range;
nothing is appended for an invalid index. -/
def QItemSelection.selectIndex (selection : QItemSelection) (index : ItemPtr) : QItemSelection :=
  if index = [] then selection else selection ++ [index]

/-- Call `QItemSelection::merge(other, command)` on cells: without Select,
Deselect or Toggle nothing changes; otherwise the cells of `other` are cut out
of the selection, the cells already selected are cut out of `other` under
Toggle, and `other` is appended unless the command has Deselect. -/
def QItemSelection.mergeWith (selection other : QItemSelection) (command : SelectionFlags) :
    QItemSelection :=
  if other.isEmpty || !(command.select || command.deselect || command.toggle) then selection
  else
    let newSelection := other.filter (fun i => decide (i ≠ []))
    let kept := selection.filter (fun i => !decide (i ∈ newSelection))
    let newSelection :=
      if command.toggle then newSelection.filter (fun i => !decide (i ∈ selection))
      else newSelection
    if command.deselect then kept else kept ++ newSelection

/-- Method `AnimationModuleTreeView::getTreeItemForModelIndex` (`itemFromIndex`):
the item of a valid index of the tree, null otherwise. -/
def getTreeItemForModelIndex (top : List TreeItem) (index : ItemPtr) : ItemPtr :=
  if (itemAt top index).isSome then index else []

mutual
/-- Body of `selectChildren(index, selection)` for the item found at `index`. -/
def selectChildrenOfItem (index : ItemPtr) : TreeItem → QItemSelection → QItemSelection
  | .mk _ _ children, selection => selectChildrenLoop index 0 children selection
/-- The `while (childIndex.isValid())` loop of `selectChildren`, from row `row`. -/
def selectChildrenLoop (index : ItemPtr) (row : Nat) :
    List TreeItem → QItemSelection → QItemSelection
  | [], selection => selection
  | c :: cs, selection =>
    let childIndex := row :: index
    let selection :=
      if QItemSelection.containsIndex selection childIndex then selection
      else QItemSelection.selectIndex selection childIndex
    let selection := selectChildrenOfItem childIndex c selection
    selectChildrenLoop index (row + 1) cs selection
end

/-- Method `AnimationModuleTreeViewSelectionModel::selectChildren`. -/
def selectChildren (top : List TreeItem) (index : ItemPtr) (selection : QItemSelection) :
    QItemSelection :=
  if index = [] then selection
  else selectChildrenLoop index 0 (childrenOf top index) selection

/-- The `do .. while` loop of `checkParentsSelectedStates` that fills
`parentItems`, started at `pIndex`. -/
def collectParentItems (top : List TreeItem) (findItem : ItemPtr → FindItemResult) :
    ItemPtr → List ItemPtr
  | [] => []
  | row :: parent =>
    if (getTreeItemForModelIndex top (row :: parent)) ≠ [] then
      (row :: parent) ::
        (if (findItem (row :: parent)).isNodeItem.isSome then []
         else collectParentItems top findItem parent)
    else []

/-- The inner loop of `checkParentsSelectedStates` over the children of a parent
item, from row `row`: false as soon as a child that is not hidden is not in
`uuSelec`. -/
def allShownChildrenSelected (parentItem : ItemPtr) (uuSelec : QItemSelection) (row : Nat) :
    List TreeItem → Bool
  | [] => true
  | child :: rest =>
    if !child.isHidden then
      if QItemSelection.containsIndex uuSelec (row :: parentItem) then
        allShownChildrenSelected parentItem uuSelec (row + 1) rest
      else false
    else allShownChildrenSelected parentItem uuSelec (row + 1) rest

/-- The command `QItemSelectionModel::Deselect` alone. -/
def deselectCommand : SelectionFlags :=
  { clear := false, select := false, deselect := true, toggle := false,
    current := false, rows := false, columns := false }

/-- One round of the `for` loop over `parentItems` in
`checkParentsSelectedStates`; the state is `(finalSelection, uuSelec)`. -/
def checkParentsStep (top : List TreeItem) (index : ItemPtr) (flags : SelectionFlags)
    (state : QItemSelection × QItemSelection) (parentItem : ItemPtr) :
    QItemSelection × QItemSelection :=
  let selectParent := allShownChildrenSelected parentItem state.2 0 (childrenOf top parentItem)
  if flags.select && selectParent then
    (QItemSelection.selectIndex state.1 index, QItemSelection.selectIndex state.2 index)
  else if flags.deselect && !selectParent then
    (QItemSelection.selectIndex state.1 index,
      QItemSelection.mergeWith state.2 (QItemSelection.selectIndex [] index) deselectCommand)
  else state

/-- Method `AnimationModuleTreeViewSelectionModel::checkParentsSelectedStates`;
the result is the updated `finalSelection`. -/
def checkParentsSelectedStates (top : List TreeItem) (findItem : ItemPtr → FindItemResult)
    (index : ItemPtr) (flags : SelectionFlags) (unitedSelection finalSelection : QItemSelection) :
    QItemSelection :=
  let parentItems := collectParentItems top findItem index.tail
  (parentItems.foldl (checkParentsStep top index flags) (finalSelection, unitedSelection)).1

/-- One round of the loop of `selectInternal` over the user-selected indexes;
`current` is `selection()`, the selection held by the selection model. -/
def selectInternalStep (top : List TreeItem) (findItem : ItemPtr → FindItemResult)
    (current : QItemSelection) (command : SelectionFlags)
    (finalSelection : QItemSelection) (index : ItemPtr) : QItemSelection :=
  if index = [] then finalSelection
  else
    let finalSelection := selectChildren top index finalSelection
    let unitedSelection := current
    let unitedSelection := if command.clear then [] else unitedSelection
    let unitedSelection := QItemSelection.mergeWith unitedSelection finalSelection command
    let treeItem := getTreeItemForModelIndex top index
    if treeItem ≠ [] then
      let r := findItem treeItem
      if r.found && r.isNodeItem.isNone && decide (index.tail ≠ []) then
        checkParentsSelectedStates top findItem index command unitedSelection finalSelection
      else finalSelection
    else finalSelection

/-- Method `AnimationModuleTreeViewSelectionModel::selectInternal`; the result
is the `finalSelection` handed to `QItemSelectionModel::select`. -/
def selectInternal (top : List TreeItem) (findItem : ItemPtr → FindItemResult)
    (current userSelection : QItemSelection) (command : SelectionFlags) (recurse : Bool) :
    QItemSelection :=
  if recurse then
    userSelection.foldl (selectInternalStep top findItem current command) userSelection
  else userSelection

/-- Method `AnimationModuleTreeViewSelectionModel::select`. -/
def select (top : List TreeItem) (findItem : ItemPtr → FindItemResult)
    (current userSelection : QItemSelection) (command : SelectionFlags) : QItemSelection :=
  selectInternal top findItem current userSelection command true

/-- Descendants of an index: the items reached from it through child rows, at
any depth. -/
def isDescendantOf (top : List TreeItem) (index q : ItemPtr) : Prop :=
  ∃ rest : List Nat, rest ≠ [] ∧ q = rest ++ index ∧ (itemAt top q).isSome = true

/-! ## The editable view: a heap of `QTreeWidgetItem`

The Qt calls are modelled on the fields they read and write: the parent pointer
and the child lists, and, for a row that is moved and for every row below it,
the membership of the widget and the expanded and hidden state that the view
keeps for the rows it shows. -/

/-- Address of a `QTreeWidgetItem`. -/
abbrev ItemId := Nat

/-- The fields of a `QTreeWidgetItem` that the view reads and writes. -/
structure QTreeWidgetItem where
  par : Option ItemId
  view : Bool
  children : List ItemId
  hidden : Bool
  expanded : Bool
  contextType : AnimatedItemTypeEnum

/-- The tree widget: its items, its invisible root item, and the number of
items it holds, which bounds the length of every parent chain. -/
structure TreeWidget where
  items : ItemId → QTreeWidgetItem
  rootItem : ItemId
  itemCount : Nat

/-- Overwrite one item of the heap. -/
def TreeWidget.modify (w : TreeWidget) (i : ItemId) (f : QTreeWidgetItem → QTreeWidgetItem) :
    TreeWidget :=
  { w with items := fun j => if j = i then f (w.items i) else w.items j }

/-- The item `x` followed by its parent, the parent of its parent, and so on,
for at most `fuel` steps up. -/
def parentChain (w : TreeWidget) : Nat → ItemId → List ItemId
  | 0, x => [x]
  | fuel + 1, x =>
    x :: match (w.items x).par with
      | some p => parentChain w fuel p
      | none => []

/-- The parent chain of `x` up to the item without a parent that ends it, when
it is reached within `fuel` steps. -/
def completeParentChain (w : TreeWidget) : Nat → ItemId → Option (List ItemId)
  | 0, x =>
    match (w.items x).par with
    | some _ => none
    | none => some [x]
  | fuel + 1, x =>
    match (w.items x).par with
    | some p => (completeParentChain w fuel p).map (fun chain => x :: chain)
    | none => some [x]

/-- Whether `x` is in the subtree of `c`: `x` is `c` or a row below `c`. -/
def isInSubtree (w : TreeWidget) (c x : ItemId) : Bool :=
  decide (c ∈ parentChain w w.itemCount x)

/-- Call `parent->removeChild(child)`: when `child` is in the child list, it is
taken out of it and loses its parent, and `child` and every row below it leave
the widget and lose the view state; otherwise nothing happens. -/
def removeChild (w : TreeWidget) (parent child : ItemId) : TreeWidget :=
  if child ∈ (w.items parent).children then
    { w with items := fun x =>
        { par := if x = child then none else (w.items x).par
          view := if isInSubtree w child x then false else (w.items x).view
          children :=
            if x = parent then (w.items x).children.erase child else (w.items x).children
          hidden := if isInSubtree w child x then false else (w.items x).hidden
          expanded := if isInSubtree w child x then false else (w.items x).expanded
          contextType := (w.items x).contextType } }
  else w

/-- Call `parent->addChild(child)`: nothing happens when `child` already has a
parent or a widget; otherwise it is appended to the child list and gets `parent`
as its parent pointer (null below the invisible root), and `child` and every row
below it join the widget of `parent`. -/
def addChild (w : TreeWidget) (parent child : ItemId) : TreeWidget :=
  if (w.items child).view || (w.items child).par.isSome then w
  else
    { w with items := fun x =>
        { par :=
            if x = child then (if parent = w.rootItem then none else some parent)
            else (w.items x).par
          view := if isInSubtree w child x then (w.items parent).view else (w.items x).view
          children :=
            if x = parent then (w.items x).children ++ [child] else (w.items x).children
          hidden := (w.items x).hidden
          expanded := (w.items x).expanded
          contextType := (w.items x).contextType } }

/-- Call `QTreeWidget::addTopLevelItem(item)`. -/
def addTopLevelItem (w : TreeWidget) (item : ItemId) : TreeWidget :=
  addChild w w.rootItem item

/-- Call `item->setExpanded(expand)`, which acts only on an item of the widget. -/
def setExpanded (w : TreeWidget) (item : ItemId) (expand : Bool) : TreeWidget :=
  if (w.items item).view then w.modify item (fun it => { it with expanded := expand })
  else w

/-- Method `AnimationModuleTreeView::getParentItem`; `none` when the item has
neither a parent nor a tree widget (the null `treeWidget()` is dereferenced). -/
def getParentItem (w : TreeWidget) (item : ItemId) : Option ItemId :=
  match (w.items item).par with
  | some parentItem => some parentItem
  | none => if (w.items item).view then some w.rootItem else none

/-- Method `AnimationModuleTreeView::reparentItem`; a null `newParent` is `none`. -/
def reparentItem (w : TreeWidget) (child : ItemId) (newParent : Option ItemId) :
    Option TreeWidget :=
  match getParentItem w child with
  | none => none
  | some currentParent =>
    let w := removeChild w currentParent child
    match newParent with
    | some p => some (addChild w p child)
    | none => some (addTopLevelItem w child)

/-- The part of `AnimationModule` and `NodeAnim` that the tree view calls. -/
structure AnimationModule where
  getTreeItem : NodeAnim → Option ItemId
  getNearestTimeNodeFromOutputs : NodeAnim → Option NodeAnim
  getGroupNodeAnim : NodeAnim → Option NodeAnim
  getChildrenNodes : NodeAnim → List NodeAnim
  findItem : ItemId → FindItemResult
  refreshVisibility : NodeAnim → TreeWidget → TreeWidget

/-- Assumption on `NodeAnim::refreshVisibility`: it re-evaluates which rows are
hidden and leaves the shape of the tree and the expanded state alone. -/
def AnimationModule.RefreshKeepsStructure (model : AnimationModule) : Prop :=
  ∀ (n : NodeAnim) (w : TreeWidget),
    (model.refreshVisibility n w).rootItem = w.rootItem ∧
    ∀ i, ((model.refreshVisibility n w).items i).par = (w.items i).par ∧
      ((model.refreshVisibility n w).items i).view = (w.items i).view ∧
      ((model.refreshVisibility n w).items i).children = (w.items i).children ∧
      ((model.refreshVisibility n w).items i).expanded = (w.items i).expanded ∧
      ((model.refreshVisibility n w).items i).contextType = (w.items i).contextType

/-- The loop of `onNodeAdded` over `childrenNodes`. -/
def onNodeAddedLoop (model : AnimationModule) (treeItem : ItemId) :
    List NodeAnim → TreeWidget → Option TreeWidget
  | [], w => some w
  | c :: cs, w =>
    match model.getTreeItem c with
    | none => none
    | some childItem =>
      match reparentItem w childItem (some treeItem) with
      | none => none
      | some w =>
        let w := model.refreshVisibility c w
        let w := setExpanded w childItem true
        onNodeAddedLoop model treeItem cs w

/-- Method `AnimationModuleTreeView::onNodeAdded`; `none` when a null pointer is
dereferenced. -/
def onNodeAdded (model : AnimationModule) (node : NodeAnim) (w : TreeWidget) :
    Option TreeWidget :=
  match model.getTreeItem node with
  | none => none
  | some treeItem =>
    let isInputOfTimeNode := model.getNearestTimeNodeFromOutputs node
    let parentGroupAnim := model.getGroupNodeAnim node
    let attached : Option TreeWidget :=
      match isInputOfTimeNode with
      | some timeNode =>
        match model.getTreeItem timeNode with
        | some p => some (addChild w p treeItem)
        | none => none
      | none =>
        match parentGroupAnim with
        | some group =>
          match model.getTreeItem group with
          | some p => some (addChild w p treeItem)
          | none => none
        | none => some (addTopLevelItem w treeItem)
    match attached with
    | none => none
    | some w =>
      match onNodeAddedLoop model treeItem (model.getChildrenNodes node) w with
      | none => none
      | some w =>
        let w := model.refreshVisibility node w
        some (setExpanded w treeItem true)

/-- The `switch` of `onNodeAboutToBeRemoved`: the context types of node rows. -/
def isNodeContextType : AnimatedItemTypeEnum → Bool
  | eAnimatedItemTypeGroup => true
  | eAnimatedItemTypeFrameRange => true
  | eAnimatedItemTypeCommon => true
  | eAnimatedItemTypeReader => true
  | eAnimatedItemTypeRetime => true
  | eAnimatedItemTypeTimeOffset => true
  | eAnimatedItemTypeTableItemAnimation => false
  | eAnimatedItemTypeKnobDim => false
  | eAnimatedItemTypeKnobRoot => false
  | eAnimatedItemTypeKnobView => false
  | eAnimatedItemTypeTableItemRoot => false

/-- The `Q_FOREACH` loop of `onNodeAboutToBeRemoved` over `toMove`. -/
def onNodeAboutToBeRemovedLoop (model : AnimationModule) (newParent : ItemId) :
    List ItemId → TreeWidget → Option TreeWidget
  | [], w => some w
  | childItem :: rest, w =>
    match reparentItem w childItem (some newParent) with
    | none => none
    | some w =>
      let w :=
        match (model.findItem childItem).isNodeItem with
        | some n => model.refreshVisibility n w
        | none => w
      let w := setExpanded w childItem true
      onNodeAboutToBeRemovedLoop model newParent rest w

/-- Method `AnimationModuleTreeView::onNodeAboutToBeRemoved`; the node pointer
may be null; `none` when a null pointer is dereferenced. -/
def onNodeAboutToBeRemoved (model : AnimationModule) (node : Option NodeAnim) (w : TreeWidget) :
    Option TreeWidget :=
  match node with
  | none => some w
  | some n =>
    match model.getTreeItem n with
    | none => some w
    | some treeItem =>
      let toMove := (w.items treeItem).children.filter
        (fun child => isNodeContextType (w.items child).contextType)
      match getParentItem w treeItem with
      | none => none
      | some newParent =>
        match onNodeAboutToBeRemovedLoop model newParent toMove w with
        | none => none
        | some w => some (removeChild w newParent treeItem)

/-- State after one round of the loop of `onNodeAdded` for the child item `ci`
whose parent item is `q`: `reparentItem(ci, t)`, then `refreshVisibility`, then
`setExpanded(true)`. -/
def onNodeAddedRound (model : AnimationModule) (t : ItemId) (c : NodeAnim) (w : TreeWidget)
    (ci q : ItemId) : TreeWidget :=
  setExpanded (model.refreshVisibility c (addChild (removeChild w q ci) t ci)) ci true

/-- Consistency of parent pointers and child lists: a listed child points back
to the item that lists it, an item with a parent is listed by it, and no child
is listed twice. -/
structure TreeWidget.WellFormed (w : TreeWidget) : Prop where
  parent_of_child : ∀ p x, x ∈ (w.items p).children → getParentItem w x = some p
  child_of_parent : ∀ x p, x ≠ w.rootItem → getParentItem w x = some p →
    x ∈ (w.items p).children
  nodup : ∀ p, (w.items p).children.Nodup

/-- Every parent chain ends at an item without a parent within `itemCount`
steps: no item is its own ancestor, and `itemCount` bounds the depth of the
tree, so that `isInSubtree` is the subtree of the tree. -/
def TreeWidget.ParentChainsEnd (w : TreeWidget) : Prop :=
  ∀ x, (completeParentChain w w.itemCount x).isSome = true

/-- The row `x` that the new row `t` of a node is attached under is in the
widget and, unless it is the invisible root, it is neither `t` or a row below
`t`, nor the row of a child node or a row below one. -/
def AnimationModule.CanAttachBelow (model : AnimationModule) (node : NodeAnim)
    (w : TreeWidget) (t x : ItemId) : Prop :=
  (w.items x).view = true ∧
  (x = w.rootItem ∨
    (isInSubtree w t x = false ∧
      ∀ c ∈ model.getChildrenNodes node, ∀ ci, model.getTreeItem c = some ci →
        isInSubtree w ci x = false))

/-! ## Branch geometry and row painting -/

/-- Accessor `QRect::left()`. -/
def QRect.left (r : QRect) : Int := r.x

/-- Accessor `QRect::right()`, Qt's convention `x + w - 1`. -/
def QRect.right (r : QRect) : Int := r.x + r.w - 1

/-- Accessor `QRect::width()`. -/
def QRect.width (r : QRect) : Int := r.w

/-- Call `QRect::setTop(y)`: moves the top edge, the bottom edge stays. -/
def QRect.setTop (r : QRect) (t : Int) : QRect :=
  { r with y := t, h := r.bottom - t + 1 }

/-- Call `QRect::setBottom(y)`: moves the bottom edge, the top edge stays. -/
def QRect.setBottom (r : QRect) (b : Int) : QRect :=
  { r with h := b - r.y + 1 }

/-- Call `QRect::adjusted(dx1, dy1, dx2, dy2)`. -/
def QRect.adjusted (r : QRect) (dx1 dy1 dx2 dy2 : Int) : QRect :=
  { x := r.x + dx1, y := r.y + dy1, w := r.w + dx2 - dx1, h := r.h + dy2 - dy1 }

/-- Method `AnimationModuleTreeViewPrivate::getBranchRect`; `widgetLeft` is
`publicInterface->rect().left()`. -/
def getBranchRect (widgetLeft : Int) (visualItemRect : ItemPtr → QRect) (item : ItemPtr) :
    QRect :=
  let itemRect := visualItemRect item
  { x := widgetLeft, y := itemRect.top, w := itemRect.left, h := itemRect.height }

/-- Method `AnimationModuleTreeViewPrivate::getArrowRect`, for a non-null item. -/
def getArrowRect (visualItemRect : ItemPtr → QRect) (item : ItemPtr) (branchRect : QRect) :
    QRect :=
  if item.tail = [] then branchRect
  else
    let parentBranchRectRight := (visualItemRect item.tail).left
    let arrowRectWidth := branchRect.right - parentBranchRectRight
    { x := parentBranchRectRight, y := branchRect.top, w := arrowRectWidth,
      h := branchRect.height }

/-- A list of ancestors cut after its first element that is a node, following
the words of the specification: "up to and including the first ancestor that
resolves to a node". -/
def upToFirstNode (isNode : ItemPtr → Bool) : List ItemPtr → List ItemPtr
  | [] => []
  | a :: rest => if isNode a then [a] else a :: upToFirstNode isNode rest

/-- How a run of the painting and panel code ends: normally, on a null pointer
that is dereferenced, or, for a loop given a bound on its rounds, because the
bound was reached before the loop had ended. -/
inductive Outcome (α : Type) where
  | done (result : α)
  | nullDereference
  | outOfFuel
  deriving DecidableEq, Repr

/-- A colour, `QColor`. -/
structure QColor where
  rgb : Nat
  alpha : Nat
  deriving DecidableEq, Repr

/-- The default-constructed `QColor`. -/
def QColor.invalid : QColor := { rgb := 0, alpha := 255 }

/-- Method `AnimationModuleTreeViewPrivate::desaturate`. -/
def desaturate (color : QColor) : QColor :=
  { color with alpha := 87 }

/-- A settings panel, `DockablePanel`. -/
structure DockablePanel where
  id : Nat
  deriving DecidableEq, Repr

/-- What the view reads of a `NodeGui`: its colour, the icon of its node, the
panel `getSettingPanel()` returns once `ensurePanelCreated()` has run, the panel
of its parent multi-instance when it has one, and its visibility flags. -/
structure NodeGui where
  currentColor : QColor
  pluginIconFilePath : String
  settingPanel : Option DockablePanel
  parentMultiInstance : Option (Option DockablePanel)
  isVisible : Bool
  isSettingsPanelVisible : Bool
  wasBeginEditCalled : Bool
  deriving DecidableEq, Repr

/-- Calls made by `openSettingsPanelForNode`, in order. -/
inductive PanelCall where
  | ensurePanelCreated
  | setVisibleSettingsPanel (visible : Bool)
  | beginEditKnobs
  | putSettingsPanelFirst (panel : Option DockablePanel)
  | redrawAllViewers
  deriving DecidableEq, Repr

/-- Method `AnimationModuleTreeViewPrivate::openSettingsPanelForNode`;
`getNodeGui` is `NodeAnim::getNodeGui`. -/
def openSettingsPanelForNode (getNodeGui : NodeAnim → Option NodeGui) (node : NodeAnim) :
    Outcome (List PanelCall) :=
  let nodeGui := getNodeGui node
  let created : List PanelCall :=
    match nodeGui with
    | some _ => [PanelCall.ensurePanelCreated]
    | none => []
  let panel : Outcome (Option DockablePanel) :=
    match nodeGui with
    | some g =>
      match g.parentMultiInstance with
      | some parentPanel => Outcome.done parentPanel
      | none => Outcome.done g.settingPanel
    | none => Outcome.nullDereference
  match panel with
  | Outcome.nullDereference => Outcome.nullDereference
  | Outcome.outOfFuel => Outcome.outOfFuel
  | Outcome.done panel =>
    match nodeGui with
    | some g =>
      if panel.isSome && g.isVisible then
        Outcome.done (created ++
          (if !g.isSettingsPanelVisible then [PanelCall.setVisibleSettingsPanel true] else []) ++
          (if !g.wasBeginEditCalled then [PanelCall.beginEditKnobs] else []) ++
          [PanelCall.putSettingsPanelFirst g.settingPanel, PanelCall.redrawAllViewers])
      else Outcome.done created
    | none => Outcome.done created

/-- Calls made on the painter by `drawRow` and its helpers, in order. -/
inductive PaintCall where
  | fillRect (rect : QRect) (color : QColor)
  | paintItem (rect : QRect) (selected : Bool)
  | drawBranchIndicator (rect : QRect) (hasChildren expanded : Bool)
  | drawPluginIconArea (iconFilePath : String) (rowRect : QRect) (drawPluginIcon : Bool)
  | drawNodeTopSeparation (itemRect : QRect)
  deriving DecidableEq, Repr

/-- What painting reads from the animation module, the node wrappers and the
widget. -/
structure PaintContext where
  findItem : ItemPtr → FindItemResult
  getTreeItem : NodeAnim → ItemPtr
  getNodeGui : NodeAnim → Option NodeGui
  containsNodeContext : NodeAnim → Bool
  iconLabelFilePath : TableItemAnim → String
  visualItemRect : ItemPtr → QRect
  widgetLeft : Int
  toDpiX : Int → Int
  itemAbove : ItemPtr → ItemPtr
  isSelected : ItemPtr → Bool

/-- The `while (nodeIt)` loop of `drawParentContainerContour`, with a bound on
the number of rounds; `calls` are the painter calls made so far. -/
def drawParentContainerContourLoop (ctx : PaintContext) (parentNode : NodeAnim)
    (itemRect : QRect) : Nat → Option NodeAnim → List PaintCall → Outcome (List PaintCall)
  | _, none, calls => Outcome.done calls
  | 0, some _, _ => Outcome.outOfFuel
  | fuel + 1, some _, calls =>
    match ctx.getNodeGui parentNode with
    | none => Outcome.nullDereference
    | some nodeGui =>
      let nodeColor := nodeGui.currentColor
      let nodeItem := ctx.getTreeItem parentNode
      if nodeItem = [] then Outcome.nullDereference
      else
        let branchRect := getBranchRect ctx.widgetLeft ctx.visualItemRect nodeItem
        let targetRect := getArrowRect ctx.visualItemRect nodeItem branchRect
        let targetRect := targetRect.setTop itemRect.top
        let targetRect := targetRect.setBottom itemRect.bottom
        let calls := calls ++ [PaintCall.fillRect targetRect nodeColor]
        let parentItem := nodeItem.tail
        let nodeIt : Option NodeAnim :=
          if parentItem ≠ [] then
            let r := ctx.findItem parentItem
            if r.found then r.isNodeItem else none
          else none
        drawParentContainerContourLoop ctx parentNode itemRect fuel nodeIt calls

/-- Method `AnimationModuleTreeViewPrivate::drawParentContainerContour`, run for
at most `fuel` rounds of its loop. -/
def drawParentContainerContour (ctx : PaintContext) (fuel : Nat) (parentNode : Option NodeAnim)
    (itemRect : QRect) : Outcome (List PaintCall) :=
  match parentNode with
  | none => Outcome.done []
  | some n => drawParentContainerContourLoop ctx n itemRect fuel (some n) []

/-- The contour rectangles of the specification: one for the item of the node,
in the colour of the node, then one for each successive ancestor item that
resolves to a node, at the position of that ancestor and in the colour of that
node, up to the first ancestor that is not a node or to the top of the tree. -/
def contourRectsOfSpec (ctx : PaintContext) (itemRect : QRect) :
    ItemPtr → QColor → List PaintCall
  | [], _ => []
  | row :: parent, color =>
    let branchRect := getBranchRect ctx.widgetLeft ctx.visualItemRect (row :: parent)
    let targetRect := getArrowRect ctx.visualItemRect (row :: parent) branchRect
    let targetRect := (targetRect.setTop itemRect.top).setBottom itemRect.bottom
    PaintCall.fillRect targetRect color ::
      (if parent ≠ [] ∧ (ctx.findItem parent).found = true then
        match (ctx.findItem parent).isNodeItem with
        | some n =>
          match ctx.getNodeGui n with
          | some g => contourRectsOfSpec ctx itemRect parent g.currentColor
          | none => []
        | none => []
      else [])

/-- Method `AnimationModuleTreeView::childrenAreHidden`. -/
def childrenAreHidden (top : List TreeItem) (item : ItemPtr) : Bool :=
  (childrenOf top item).all (fun child => child.isHidden)

/-- Method `AnimationModuleTreeView::drawBranch`. -/
def drawBranch (ctx : PaintContext) (top : List TreeItem) (rect : QRect)
    (closestEnclosingNodeItem : Option NodeAnim) (nodeColor : QColor) (item : ItemPtr) :
    Outcome (List PaintCall) :=
  let nodeColorDull := desaturate nodeColor
  match closestEnclosingNodeItem with
  | none => Outcome.nullDereference
  | some n =>
    let nodeItemBranchRect := getBranchRect ctx.widgetLeft ctx.visualItemRect (ctx.getTreeItem n)
    let rectForDull : QRect :=
      { x := nodeItemBranchRect.right, y := rect.top,
        w := rect.right - nodeItemBranchRect.right, h := rect.height }
    let optionRect := getArrowRect ctx.visualItemRect item rect
    let hasChildren := decide ((childrenOf top item).length ≠ 0) && !childrenAreHidden top item
    let expanded := expandedAt top item
    Outcome.done [PaintCall.fillRect rectForDull nodeColorDull,
      PaintCall.drawBranchIndicator optionRect hasChildren expanded]

/-- The `switch (foundType)` of `drawRow`: whether an icon is wanted. -/
def drawPluginIconTooOf : AnimatedItemTypeEnum → Bool
  | eAnimatedItemTypeGroup => true
  | eAnimatedItemTypeFrameRange => true
  | eAnimatedItemTypeCommon => true
  | eAnimatedItemTypeReader => true
  | eAnimatedItemTypeRetime => true
  | eAnimatedItemTypeTimeOffset => true
  | eAnimatedItemTypeTableItemAnimation => true
  | eAnimatedItemTypeKnobDim => false
  | eAnimatedItemTypeKnobRoot => false
  | eAnimatedItemTypeKnobView => false
  | eAnimatedItemTypeTableItemRoot => false

/-- The part of `drawRow` that finds the closest enclosing node and the icon of
the row from what `findItem` returned. -/
def closestEnclosingNodeOf (ctx : PaintContext) (r : FindItemResult) (drawPluginIconToo : Bool) :
    Outcome (Option NodeAnim × String) :=
  match r.isNodeItem with
  | some n =>
    if drawPluginIconToo then
      match ctx.getNodeGui n with
      | some g => Outcome.done (some n, g.pluginIconFilePath)
      | none => Outcome.nullDereference
    else Outcome.done (some n, "")
  | none =>
    match r.isTableItem with
    | some t =>
      Outcome.done (t.getNode, if drawPluginIconToo then ctx.iconLabelFilePath t else "")
    | none =>
      match r.isKnob with
      | some k =>
        match toTableItemAnim k.getHolder with
        | some t => Outcome.done (t.getNode, "")
        | none => Outcome.done (toNodeAnim k.getHolder, "")
      | none => Outcome.done (none, "")

/-- Method `AnimationModuleTreeView::drawRow`, with assertions compiled out and
at most `fuel` rounds of the contour loop; `rowRect` is `option.rect`. -/
def drawRow (ctx : PaintContext) (top : List TreeItem) (fuel : Nat) (rowRect : QRect)
    (index : ItemPtr) : Outcome (List PaintCall) :=
  let item := getTreeItemForModelIndex top index
  let isTreeViewTopItem := decide (ctx.itemAbove item = [])
  let itemRect := ctx.visualItemRect item
  let branchRect : QRect := { x := 0, y := rowRect.y, w := itemRect.x, h := rowRect.height }
  let r := ctx.findItem item
  let drawPluginIconToo := drawPluginIconTooOf r.type
  match closestEnclosingNodeOf ctx r drawPluginIconToo with
  | Outcome.nullDereference => Outcome.nullDereference
  | Outcome.outOfFuel => Outcome.outOfFuel
  | Outcome.done (closestEnclosingNode, iconFilePath) =>
    let nodeColor : Outcome QColor :=
      match closestEnclosingNode with
      | some n =>
        match ctx.getNodeGui n with
        | some g => Outcome.done g.currentColor
        | none => Outcome.nullDereference
      | none => Outcome.done QColor.invalid
    match nodeColor with
    | Outcome.nullDereference => Outcome.nullDereference
    | Outcome.outOfFuel => Outcome.outOfFuel
    | Outcome.done nodeColor =>
      let nodeColorDull := desaturate nodeColor
      let isContainer :=
        match r.isNodeItem with
        | some n => ctx.containsNodeContext n
        | none => false
      let fillColor := if drawPluginIconToo && isContainer then nodeColor else nodeColorDull
      let background : List PaintCall :=
        [PaintCall.fillRect (itemRect.adjusted (ctx.toDpiX (-1)) 0 0 0) fillColor,
         PaintCall.paintItem itemRect (ctx.isSelected index)]
      match drawParentContainerContour ctx fuel closestEnclosingNode itemRect with
      | Outcome.nullDereference => Outcome.nullDereference
      | Outcome.outOfFuel => Outcome.outOfFuel
      | Outcome.done contour =>
        match drawBranch ctx top branchRect closestEnclosingNode nodeColor item with
        | Outcome.nullDereference => Outcome.nullDereference
        | Outcome.outOfFuel => Outcome.outOfFuel
        | Outcome.done branch =>
          Outcome.done (background ++ contour ++ branch ++
            [PaintCall.drawPluginIconArea iconFilePath rowRect drawPluginIconToo] ++
            (if r.isNodeItem.isSome && !isTreeViewTopItem then
              [PaintCall.drawNodeTopSeparation itemRect]
            else []))

/-! ## Double click on a row -/

/-- Calls that `onItemDoubleClicked` makes on its collaborators, in order: the
calls made inside `openSettingsPanelForNode`, and `selectKeyframes` on the
selection model of the animation module. -/
inductive GuiCall where
  | panel (call : PanelCall)
  | selectKeyframesKnob (knob : KnobAnim) (dim view : Int)
  | selectKeyframesTableItem (item : TableItemAnim) (dim view : Int)
  deriving DecidableEq, Repr

/-- Whether a call is a call of `selectKeyframes` on the selection model. -/
def GuiCall.isSelectKeyframes : GuiCall → Bool
  | .panel _ => false
  | .selectKeyframesKnob _ _ _ => true
  | .selectKeyframesTableItem _ _ _ => true

/-- Method `AnimationModuleTreeView::onItemDoubleClicked`, as the list of calls
it makes; `findItem` is `AnimationModule::findItem` and `getNodeGui` is
`NodeAnim::getNodeGui`.  The run ends where `openSettingsPanelForNode`
dereferences a null pointer. -/
def onItemDoubleClicked {α : Type} (findItem : α → FindItemResult)
    (getNodeGui : NodeAnim → Option NodeGui) (item : α) : Outcome (List GuiCall) :=
  let r := findItem item
  if !r.found then Outcome.done []
  else
    let isKnob := r.isKnob
    let isTableItem : Option TableItemAnim :=
      match isKnob with
      | some k => toTableItemAnim k.getHolder
      | none => r.isTableItem
    let isNodeItem : Option NodeAnim :=
      match isKnob with
      | some k =>
        match isTableItem with
        | some t => t.getNode
        | none => toNodeAnim k.getHolder
      | none =>
        match isTableItem with
        | some t => t.getNode
        | none => r.isNodeItem
    let panel : Outcome (List GuiCall) :=
      match isNodeItem with
      | some n =>
        match openSettingsPanelForNode getNodeGui n with
        | Outcome.done calls => Outcome.done (calls.map GuiCall.panel)
        | Outcome.nullDereference => Outcome.nullDereference
        | Outcome.outOfFuel => Outcome.outOfFuel
      | none => Outcome.done []
    let keyframes : List GuiCall :=
      match isKnob with
      | some k => [GuiCall.selectKeyframesKnob k r.dim r.view]
      | none =>
        match isTableItem with
        | some t =>
          if r.type = eAnimatedItemTypeTableItemAnimation then
            [GuiCall.selectKeyframesTableItem t r.dim r.view]
          else []
        | none => []
    match panel with
    | Outcome.done panelCalls => Outcome.done (panelCalls ++ keyframes)
    | Outcome.nullDereference => Outcome.nullDereference
    | Outcome.outOfFuel => Outcome.outOfFuel

/-- Resolution of every row to the same knob, held by the node 1. -/
def knobOfNodeFindItem (_item : ItemPtr) : FindItemResult :=
  { found := true, type := eAnimatedItemTypeKnobRoot,
    isKnob := some { id := 2, getHolder := AnimItemHolder.node { id := 1 } },
    isTableItem := none, isNodeItem := none, view := 0, dim := 0 }

/-! ## Concrete trees used in the worked cases -/

/-- The command `QItemSelectionModel::Select` alone. -/
def selectCommand : SelectionFlags :=
  { clear := false, select := true, deselect := false, toggle := false,
    current := false, rows := false, columns := false }

/-- A node row `[0]` with one knob row `[0, 0]` below it, both shown. -/
def nodeWithKnob : List TreeItem :=
  [TreeItem.mk false true [TreeItem.mk false false []]]

/-- Resolution of the rows of `nodeWithKnob`: the top-level row is a node, every
other row is a knob of that node. -/
def nodeWithKnobFindItem (item : ItemPtr) : FindItemResult :=
  if item = [0] then
    { found := true, type := eAnimatedItemTypeCommon, isKnob := none, isTableItem := none,
      isNodeItem := some { id := 1 }, view := 0, dim := 0 }
  else
    { found := true, type := eAnimatedItemTypeKnobRoot,
      isKnob := some { id := 2, getHolder := AnimItemHolder.node { id := 1 } },
      isTableItem := none, isNodeItem := none, view := 0, dim := 0 }

/-- Four nested rows `[0]`, `[0, 0]`, `[0, 0, 0]`, `[0, 0, 0, 0]`, none hidden,
the first three expanded. -/
def chainOfFour : List TreeItem :=
  [TreeItem.mk false true [TreeItem.mk false true [TreeItem.mk false true
    [TreeItem.mk false false []]]]]

/-- Visual rectangles of `chainOfFour`: rows of height 20 stacked from y = 0,
one row per nesting level. -/
def chainRowRect (item : ItemPtr) : QRect :=
  { x := 0, y := 20 * ((item.length : Int) - 1), w := 100, h := 20 }

/-- An item that is in no tree: no parent, no widget, no children. -/
def detachedItem (contextType : AnimatedItemTypeEnum) : QTreeWidgetItem :=
  { par := none, view := false, children := [], hidden := false, expanded := false,
    contextType := contextType }

/-- A widget with the invisible root at address 0.  Top level: the group node 1
and the node 5.  Below the group: its knob row 2 and the node rows 3 and 4.
Address 6 is the row of a retime node that is not in the tree yet. -/
def exampleWidget : TreeWidget :=
  { rootItem := 0
    itemCount := 7
    items := fun i =>
      [ { par := none, view := true, children := [1, 5], hidden := false, expanded := true,
          contextType := eAnimatedItemTypeCommon },
        { par := none, view := true, children := [2, 3, 4], hidden := false, expanded := true,
          contextType := eAnimatedItemTypeGroup },
        { par := some 1, view := true, children := [], hidden := false, expanded := false,
          contextType := eAnimatedItemTypeKnobRoot },
        { par := some 1, view := true, children := [], hidden := false, expanded := true,
          contextType := eAnimatedItemTypeCommon },
        { par := some 1, view := true, children := [], hidden := false, expanded := true,
          contextType := eAnimatedItemTypeReader },
        { par := none, view := true, children := [], hidden := false, expanded := true,
          contextType := eAnimatedItemTypeCommon },
        detachedItem eAnimatedItemTypeRetime ].getD i (detachedItem eAnimatedItemTypeCommon) }

/-- An animation module over `exampleWidget`: the tree item of node `n` is at
address `n.id` (node 9 has none), the retime node 6 is in the group 1 and takes
the node 3 as its child, and `refreshVisibility` shows the row of the node. -/
def exampleModel : AnimationModule :=
  { getTreeItem := fun n => if n.id = 9 then none else some n.id
    getNearestTimeNodeFromOutputs := fun _ => none
    getGroupNodeAnim := fun n => if n.id = 6 then some { id := 1 } else none
    getChildrenNodes := fun n => if n.id = 6 then [{ id := 3 }] else []
    findItem := fun i =>
      { found := true, type := eAnimatedItemTypeCommon, isKnob := none, isTableItem := none,
        isNodeItem := some { id := i }, view := 0, dim := 0 }
    refreshVisibility := fun n w => w.modify n.id (fun it => { it with hidden := false }) }

/-- A group row `[0]` with one node row `[0, 0]` below it, both shown. -/
def groupWithNode : List TreeItem :=
  [TreeItem.mk false true [TreeItem.mk false true []]]

/-- The `NodeGui` of the nodes of `nestedContext`, coloured by node. -/
def nestedNodeGui (n : NodeAnim) : NodeGui :=
  { currentColor := { rgb := n.id, alpha := 255 }, pluginIconFilePath := "",
    settingPanel := some { id := n.id }, parentMultiInstance := none, isVisible := true,
    isSettingsPanelVisible := false, wasBeginEditCalled := false }

/-- Painting context of `groupWithNode`: the row `[0]` is the group node 1, the
row `[0, 0]` is the node 2 inside the group; rows are 20 high and each nesting
level is indented by 20. -/
def nestedContext : PaintContext :=
  { findItem := fun item =>
      { found := true, type := eAnimatedItemTypeCommon, isKnob := none, isTableItem := none,
        isNodeItem := some { id := item.length }, view := 0, dim := 0 }
    getTreeItem := fun n => List.replicate n.id 0
    getNodeGui := fun n => some (nestedNodeGui n)
    containsNodeContext := fun n => decide (n.id = 1)
    iconLabelFilePath := fun _ => ""
    visualItemRect := fun item =>
      { x := 20 * (item.length : Int), y := 20 * ((item.length : Int) - 1), w := 100, h := 20 }
    widgetLeft := 0
    toDpiX := fun v => v
    itemAbove := fun item => item.tail
    isSelected := fun _ => false }

/-- The painting context `nestedContext` with an animation module that resolves
no row: `findItem` returns false and leaves its out-parameters null. -/
def unresolvedContext : PaintContext :=
  { nestedContext with
    findItem := fun _ =>
      { found := false, type := eAnimatedItemTypeCommon, isKnob := none, isTableItem := none,
        isNodeItem := none, view := 0, dim := 0 } }

/-! ## Properties -/

theorem itemAt_parent_isSome (top : List TreeItem) (row : Nat) (parent : ItemPtr)
    (h : (itemAt top (row :: parent)).isSome) (hp : parent ≠ []) :
    (itemAt top parent).isSome := by
  cases parent with
  | nil => exact absurd rfl hp
  | cons r p =>
    simp only [itemAt, childrenOf] at h ⊢
    cases hc : (childrenOf top p)[r]? with
    | none => simp [hc] at h
    | some it => simp

theorem isItemVisibleRecursiveInternal_iff (top : List TreeItem) :
    ∀ (item : ItemPtr) (checkExpand : Bool), (itemAt top item).isSome →
      (isItemVisibleRecursiveInternal top item checkExpand = true ↔
        hiddenAt top item = false ∧ (checkExpand = true → expandedAt top item = true) ∧
        ∀ a ∈ properAncestors item, hiddenAt top a = false ∧ expandedAt top a = true) := by
  intro item
  induction item with
  | nil => intro _ h; simp [itemAt] at h
  | cons row parent ih =>
    intro ce h
    obtain ⟨it, hit⟩ := Option.isSome_iff_exists.mp h
    by_cases hp : parent = []
    · subst hp
      simp only [isItemVisibleRecursiveInternal, hit, hiddenAt, expandedAt, properAncestors]
      cases it.isHidden <;> cases it.isExpanded <;> cases ce <;> simp
    · have hpar := itemAt_parent_isSome top row parent h hp
      have ih1 := ih true hpar
      have hh : hiddenAt top (row :: parent) = it.isHidden := by simp [hiddenAt, hit]
      have he : expandedAt top (row :: parent) = it.isExpanded := by simp [expandedAt, hit]
      simp only [isItemVisibleRecursiveInternal, hit, hh, he, properAncestors, hp,
        if_false, ne_eq, not_false_eq_true, if_true, List.mem_cons, forall_eq_or_imp]
      cases it.isHidden <;> cases it.isExpanded <;> cases ce <;> simp [ih1, and_assoc]

theorem isItemVisibleRecursive_eq_true_iff (top : List TreeItem) (item : ItemPtr)
    (hitem : item = [] ∨ (itemAt top item).isSome) :
    isItemVisibleRecursive top item = true ↔
      item ≠ [] ∧ hiddenAt top item = false ∧
      ∀ a ∈ properAncestors item, hiddenAt top a = false ∧ expandedAt top a = true := by
  rcases hitem with h | h
  · subst h; simp [isItemVisibleRecursive, isItemVisibleRecursiveInternal]
  · have hne : item ≠ [] := by
      intro h0; subst h0; simp [itemAt] at h
    rw [isItemVisibleRecursive, isItemVisibleRecursiveInternal_iff top item false h]
    simp [hne]

/-- C7: `isItemVisibleRecursive(item)` is true exactly when `item` is non-null,
is not hidden, and every proper ancestor is not hidden and is expanded.  The
expanded state of `item` itself does not count: a tree that agrees with this one
on the hidden state of `item` and on the hidden and expanded state of its proper
ancestors gives the same result, whatever the expanded state of `item` is in it.
The function is total: the recursion follows the parent chain, which is finite. -/
theorem isItemVisibleRecursive_iff (top : List TreeItem) (item : ItemPtr)
    (hitem : item = [] ∨ (itemAt top item).isSome) :
    (isItemVisibleRecursive top item = true ↔
      item ≠ [] ∧ hiddenAt top item = false ∧
      ∀ a ∈ properAncestors item, hiddenAt top a = false ∧ expandedAt top a = true) ∧
    (∀ other : List TreeItem, (itemAt other item).isSome →
      hiddenAt other item = hiddenAt top item →
      (∀ a ∈ properAncestors item,
        hiddenAt other a = hiddenAt top a ∧ expandedAt other a = expandedAt top a) →
      isItemVisibleRecursive other item = isItemVisibleRecursive top item) := by
  refine ⟨isItemVisibleRecursive_eq_true_iff top item hitem, ?_⟩
  intro other hother hh ha
  rw [Bool.eq_iff_iff, isItemVisibleRecursive_eq_true_iff top item hitem,
    isItemVisibleRecursive_eq_true_iff other item (Or.inr hother), hh]
  constructor
  · rintro ⟨h1, h2, h3⟩
    exact ⟨h1, h2, fun a hmem => by
      rw [← (ha a hmem).1, ← (ha a hmem).2]; exact h3 a hmem⟩
  · rintro ⟨h1, h2, h3⟩
    exact ⟨h1, h2, fun a hmem => by
      rw [(ha a hmem).1, (ha a hmem).2]; exact h3 a hmem⟩

/-! ### Bottom row of the tree -/

theorem properAncestors_cons (row : Nat) (p : ItemPtr) :
    properAncestors (row :: p) = properAncestors (0 :: p) := by
  simp [properAncestors]

theorem isVisibleRow_cons (top : List TreeItem) (row : Nat) (p : ItemPtr) :
    isVisibleRow top (row :: p) = (!hiddenAt top (row :: p) && openAt top p) := by
  simp [isVisibleRow, openAt, properAncestors]

theorem openAt_cons (top : List TreeItem) (row : Nat) (p : ItemPtr) :
    openAt top (row :: p) =
      ((!hiddenAt top (row :: p) && expandedAt top (row :: p)) && openAt top p) := by
  simp [openAt, properAncestors]

theorem itemAt_of_split (top : List TreeItem) (ptr : ItemPtr) (pre : List TreeItem)
    (c : TreeItem) (cs : List TreeItem) (h : childrenOf top ptr = pre ++ c :: cs) :
    itemAt top (pre.length :: ptr) = some c := by
  simp only [itemAt, h]
  rw [List.getElem?_append_right (Nat.le_refl _)]
  simp

theorem childrenOf_of_itemAt (top : List TreeItem) (row : Nat) (ptr : ItemPtr) (c : TreeItem)
    (h : itemAt top (row :: ptr) = some c) : childrenOf top (row :: ptr) = c.children := by
  simp only [itemAt] at h
  simp [childrenOf, h]

mutual
theorem filter_displayOrderItem (top : List TreeItem) :
    ∀ (c : TreeItem) (row : Nat) (ptr : ItemPtr), itemAt top (row :: ptr) = some c →
      ((openAt top ptr = false ∨ c.isHidden = true) →
        (displayOrderItem (row :: ptr) c).filter (isVisibleRow top) = []) ∧
      (openAt top ptr = true →
        ((displayOrderItem (row :: ptr) c).filter (isVisibleRow top)).getLast? =
          getTreeBottomItemInternal (row :: ptr) c)
  | .mk hid ex cs, row, ptr, hit => by
    have hch : childrenOf top (row :: ptr) = [] ++ cs := by
      simpa [TreeItem.children] using childrenOf_of_itemAt top row ptr _ hit
    have ih := filter_displayOrderRows top cs 0 (row :: ptr) [] hch rfl
    have hh : hiddenAt top (row :: ptr) = hid := by simp [hiddenAt, hit, TreeItem.isHidden]
    have he : expandedAt top (row :: ptr) = ex := by simp [expandedAt, hit, TreeItem.isExpanded]
    have hv := isVisibleRow_cons top row ptr
    have ho := openAt_cons top row ptr
    rw [hh] at hv
    rw [hh, he] at ho
    refine ⟨?_, ?_⟩
    · intro hcase
      have hv0 : isVisibleRow top (row :: ptr) = false := by
        rcases hcase with h | h
        · simp [hv, h]
        · simp only [TreeItem.isHidden] at h
          simp [hv, h]
      have ho0 : openAt top (row :: ptr) = false := by
        rcases hcase with h | h
        · simp [ho, h]
        · simp only [TreeItem.isHidden] at h
          simp [ho, h]
      simp [displayOrderItem, List.filter_cons, hv0, ih.1 ho0]
    · intro hopen
      cases hid with
      | true =>
        have ho0 : openAt top (row :: ptr) = false := by simp [ho]
        simp [displayOrderItem, List.filter_cons, hv, ih.1 ho0, getTreeBottomItemInternal]
      | false =>
        have hv1 : isVisibleRow top (row :: ptr) = true := by simp [hv, hopen]
        cases cs with
        | nil =>
          simp [displayOrderItem, displayOrderRows, List.filter_cons, hv1,
            getTreeBottomItemInternal]
        | cons c0 cs0 =>
          cases ex with
          | false =>
            have ho0 : openAt top (row :: ptr) = false := by simp [ho]
            simp [displayOrderItem, List.filter_cons, hv1, ih.1 ho0, getTreeBottomItemInternal]
          | true =>
            have ho1 : openAt top (row :: ptr) = true := by simp [ho, hopen]
            have ih2 := ih.2 ho1
            simp only [displayOrderItem, List.filter_cons, hv1, if_true, List.getLast?_cons,
              ih2, getTreeBottomItemInternal, Bool.false_eq_true, if_false, List.length_cons,
              Nat.add_one_ne_zero, Bool.not_true]
            cases getTreeBottomItemLoop (row :: ptr) 0 (c0 :: cs0) <;> rfl
theorem filter_displayOrderRows (top : List TreeItem) :
    ∀ (cs : List TreeItem) (row : Nat) (ptr : ItemPtr) (pre : List TreeItem),
      childrenOf top ptr = pre ++ cs → pre.length = row →
      (openAt top ptr = false →
        (displayOrderRows ptr row cs).filter (isVisibleRow top) = []) ∧
      (openAt top ptr = true →
        ((displayOrderRows ptr row cs).filter (isVisibleRow top)).getLast? =
          getTreeBottomItemLoop ptr row cs)
  | [], _, _, _, _, _ => by
    simp [displayOrderRows, getTreeBottomItemLoop]
  | c :: cs, row, ptr, pre, hsplit, hlen => by
    have hit : itemAt top (row :: ptr) = some c := by
      rw [← hlen]; exact itemAt_of_split top ptr pre c cs hsplit
    have ihc := filter_displayOrderItem top c row ptr hit
    have ihr := filter_displayOrderRows top cs (row + 1) ptr (pre ++ [c])
      (by simpa using hsplit) (by simp [hlen])
    refine ⟨?_, ?_⟩
    · intro h0
      simp [displayOrderRows, ihc.1 (Or.inl h0), ihr.1 h0]
    · intro h1
      simp only [displayOrderRows, List.filter_append, List.getLast?_append, ihc.2 h1, ihr.2 h1,
        getTreeBottomItemLoop]
      cases getTreeBottomItemLoop ptr (row + 1) cs <;> rfl
end

theorem getTreeBottomItemInternal_eq_none (ptr : ItemPtr) (c : TreeItem) :
    getTreeBottomItemInternal ptr c = none ↔ c.isHidden = true := by
  cases c with
  | mk hid ex cs =>
    simp only [getTreeBottomItemInternal, TreeItem.isHidden]
    cases hid with
    | true => simp
    | false =>
      simp only [Bool.false_eq_true, if_false, iff_false]
      split
      · simp
      · split
        · simp
        · split <;> simp

theorem getTreeBottomItemLoop_eq_none (ptr : ItemPtr) :
    ∀ (cs : List TreeItem) (row : Nat),
      getTreeBottomItemLoop ptr row cs = none ↔ ∀ it ∈ cs, it.isHidden = true := by
  intro cs
  induction cs with
  | nil => intro row; simp [getTreeBottomItemLoop]
  | cons c cs ih =>
    intro row
    simp only [getTreeBottomItemLoop, List.mem_cons, forall_eq_or_imp]
    cases hl : getTreeBottomItemLoop ptr (row + 1) cs with
    | none =>
      have hall := (ih (row + 1)).mp hl
      simp only [getTreeBottomItemInternal_eq_none]
      exact ⟨fun h => ⟨h, hall⟩, fun h => h.1⟩
    | some r =>
      have hne : ¬ ∀ it ∈ cs, it.isHidden = true := by
        intro hall
        have := (ih (row + 1)).mpr hall
        rw [hl] at this
        cases this
      simp [hne]

mutual
theorem isSome_of_mem_displayOrderItem (top : List TreeItem) :
    ∀ (c : TreeItem) (row : Nat) (ptr : ItemPtr), itemAt top (row :: ptr) = some c →
      ∀ p ∈ displayOrderItem (row :: ptr) c, (itemAt top p).isSome = true
  | .mk hid ex cs, row, ptr, hit => by
    have hch : childrenOf top (row :: ptr) = [] ++ cs := by
      simpa [TreeItem.children] using childrenOf_of_itemAt top row ptr _ hit
    have ih := isSome_of_mem_displayOrderRows top cs 0 (row :: ptr) [] hch rfl
    intro p hp
    simp only [displayOrderItem, List.mem_cons] at hp
    rcases hp with h | h
    · subst h; simp [hit]
    · exact ih p h
theorem isSome_of_mem_displayOrderRows (top : List TreeItem) :
    ∀ (cs : List TreeItem) (row : Nat) (ptr : ItemPtr) (pre : List TreeItem),
      childrenOf top ptr = pre ++ cs → pre.length = row →
      ∀ p ∈ displayOrderRows ptr row cs, (itemAt top p).isSome = true
  | [], _, _, _, _, _ => by
    simp [displayOrderRows]
  | c :: cs, row, ptr, pre, hsplit, hlen => by
    have hit : itemAt top (row :: ptr) = some c := by
      rw [← hlen]; exact itemAt_of_split top ptr pre c cs hsplit
    have ihc := isSome_of_mem_displayOrderItem top c row ptr hit
    have ihr := isSome_of_mem_displayOrderRows top cs (row + 1) ptr (pre ++ [c])
      (by simpa using hsplit) (by simp [hlen])
    intro p hp
    simp only [displayOrderRows, List.mem_append] at hp
    rcases hp with h | h
    · exact ihc p h
    · exact ihr p h
end

theorem getTreeBottomItem_eq_getLast (top : List TreeItem) :
    getTreeBottomItem top = (visibleRows top).getLast? := by
  have h := (filter_displayOrderRows top top 0 [] [] rfl rfl).2 (by simp [openAt, properAncestors])
  simp only [getTreeBottomItem, visibleRows, displayOrder, h]
  cases top with
  | nil => simp [getTreeBottomItemLoop]
  | cons c cs => simp

theorem isItemVisibleRecursive_of_isVisibleRow (top : List TreeItem) (p : ItemPtr)
    (hp : (itemAt top p).isSome = true) (hv : isVisibleRow top p = true) :
    isItemVisibleRecursive top p = true := by
  have hne : p ≠ [] := by
    intro h0; subst h0; simp [itemAt] at hp
  rw [isItemVisibleRecursive, isItemVisibleRecursiveInternal_iff top p false hp]
  simp only [isVisibleRow, Bool.and_eq_true, Bool.not_eq_true', List.all_eq_true] at hv
  refine ⟨hv.1, by simp, ?_⟩
  intro a ha
  exact hv.2 a ha

/-- C6 (as amended): `getTreeBottomItem` returns null exactly when no top-level
item is non-hidden; in every case it returns the last of the visible rows in
display order; a non-null result satisfies `isItemVisibleRecursive`; and
`getTreeBottomYWidgetCoords` is 0 in the null case and the bottom of the visual
rectangle of the returned row otherwise. -/
theorem getTreeBottomItem_spec (top : List TreeItem) (visualItemRect : ItemPtr → QRect) :
    (getTreeBottomItem top = none ↔ ∀ it ∈ top, it.isHidden = true) ∧
    getTreeBottomItem top = (visibleRows top).getLast? ∧
    (∀ p, getTreeBottomItem top = some p → isItemVisibleRecursive top p = true) ∧
    (getTreeBottomItem top = none → getTreeBottomYWidgetCoords top visualItemRect = 0) ∧
    (∀ p, getTreeBottomItem top = some p →
      getTreeBottomYWidgetCoords top visualItemRect = (visualItemRect p).bottom) := by
  refine ⟨?_, getTreeBottomItem_eq_getLast top, ?_, ?_, ?_⟩
  · simp only [getTreeBottomItem]
    cases top with
    | nil => simp
    | cons c cs =>
      simpa using getTreeBottomItemLoop_eq_none [] (c :: cs) 0
  · intro p hp
    rw [getTreeBottomItem_eq_getLast] at hp
    have hmem := List.mem_of_getLast?_eq_some hp
    simp only [visibleRows, List.mem_filter] at hmem
    exact isItemVisibleRecursive_of_isVisibleRow top p
      (isSome_of_mem_displayOrderRows top top 0 [] [] rfl rfl p hmem.1) hmem.2
  · intro h
    simp [getTreeBottomYWidgetCoords, h]
  · intro p h
    simp [getTreeBottomYWidgetCoords, h]

/-- C6, counterexample to "returns 0 exactly in the null case": a single visible
top-level row whose visual rectangle `QRect(0, -19, 100, 20)` ends at y = 0 is
returned by `getTreeBottomItem`, and `getTreeBottomYWidgetCoords` is 0. -/
theorem getTreeBottomYWidgetCoords_zero_not_null :
    ¬ (getTreeBottomYWidgetCoords [TreeItem.mk false false []]
          (fun _ => { x := 0, y := -19, w := 100, h := 20 }) = 0 ↔
        getTreeBottomItem [TreeItem.mk false false []] = none) := by
  decide

/-! ### Selection propagation -/

theorem mem_selectIndex_of_mem (selection : QItemSelection) (index x : ItemPtr)
    (h : x ∈ selection) : x ∈ QItemSelection.selectIndex selection index := by
  unfold QItemSelection.selectIndex
  split
  · exact h
  · exact List.mem_append_left _ h

theorem mem_selectIndex_self (selection : QItemSelection) (index : ItemPtr) (h : index ≠ []) :
    index ∈ QItemSelection.selectIndex selection index := by
  simp [QItemSelection.selectIndex, h]

mutual
theorem mem_selectChildrenOfItem_of_mem (x : ItemPtr) :
    ∀ (c : TreeItem) (index : ItemPtr) (selection : QItemSelection),
      x ∈ selection → x ∈ selectChildrenOfItem index c selection
  | .mk _ _ cs, index, selection, h => by
    simp only [selectChildrenOfItem]
    exact mem_selectChildrenLoop_of_mem x cs index 0 selection h
theorem mem_selectChildrenLoop_of_mem (x : ItemPtr) :
    ∀ (cs : List TreeItem) (index : ItemPtr) (row : Nat) (selection : QItemSelection),
      x ∈ selection → x ∈ selectChildrenLoop index row cs selection
  | [], _, _, _, h => by simpa [selectChildrenLoop] using h
  | c :: cs, index, row, selection, h => by
    simp only [selectChildrenLoop]
    apply mem_selectChildrenLoop_of_mem x cs index (row + 1)
    apply mem_selectChildrenOfItem_of_mem x c (row :: index)
    split
    · exact h
    · exact mem_selectIndex_of_mem _ _ _ h
end

theorem selectChildrenLoop_covers (index : ItemPtr) :
    ∀ (cs : List TreeItem) (row : Nat) (selection : QItemSelection) (k : Nat) (c : TreeItem),
      cs[k]? = some c →
      (row + k) :: index ∈ selectChildrenLoop index row cs selection ∧
      ∀ q, (∀ sel, q ∈ selectChildrenOfItem ((row + k) :: index) c sel) →
        q ∈ selectChildrenLoop index row cs selection := by
  intro cs
  induction cs with
  | nil => intro row selection k c h; simp at h
  | cons c0 cs ih =>
    intro row selection k c h
    cases k with
    | zero =>
      simp only [List.getElem?_cons_zero, Option.some.injEq] at h
      subst h
      simp only [selectChildrenLoop, Nat.add_zero]
      refine ⟨?_, ?_⟩
      · apply mem_selectChildrenLoop_of_mem
        apply mem_selectChildrenOfItem_of_mem
        split
        · rename_i hc
          simp only [QItemSelection.containsIndex, Bool.and_eq_true, decide_eq_true_eq] at hc
          exact hc.2
        · exact mem_selectIndex_self _ _ (by simp)
      · intro q hq
        apply mem_selectChildrenLoop_of_mem
        exact hq _
    | succ k =>
      simp only [List.getElem?_cons_succ] at h
      have := ih (row + 1) (selectChildrenOfItem (row :: index) c0
        (if QItemSelection.containsIndex selection (row :: index) then selection
         else QItemSelection.selectIndex selection (row :: index))) k c h
      have hrk : row + 1 + k = row + (k + 1) := by omega
      rw [hrk] at this
      simpa only [selectChildrenLoop] using this

theorem itemAt_isSome_of_append (top : List TreeItem) :
    ∀ (rest : List Nat) (p : ItemPtr), p ≠ [] → (itemAt top (rest ++ p)).isSome = true →
      (itemAt top p).isSome = true := by
  intro rest
  induction rest with
  | nil => intro p _ h; simpa using h
  | cons r rest ih =>
    intro p hp h
    have hne : rest ++ p ≠ [] := by simp [hp]
    exact ih p hp (itemAt_parent_isSome top r (rest ++ p) h hne)

theorem mem_selectChildrenLoop_of_descendant (top : List TreeItem) :
    ∀ (n : Nat) (rest : List Nat) (index : ItemPtr) (selection : QItemSelection),
      rest.length = n → rest ≠ [] → index ≠ [] → (itemAt top (rest ++ index)).isSome = true →
      rest ++ index ∈ selectChildrenLoop index 0 (childrenOf top index) selection := by
  intro n
  induction n using Nat.strong_induction_on with
  | _ n ih =>
    intro rest index selection hlen hne hidx hsome
    rcases List.eq_nil_or_concat rest with h | ⟨rest1, r0, h⟩
    · exact absurd h hne
    · subst h
      have hq : rest1.concat r0 ++ index = rest1 ++ (r0 :: index) := by simp
      rw [hq] at hsome ⊢
      have hchild := itemAt_isSome_of_append top rest1 (r0 :: index) (by simp) hsome
      obtain ⟨c, hc⟩ := Option.isSome_iff_exists.mp hchild
      have hget : (childrenOf top index)[r0]? = some c := by simpa [itemAt] using hc
      have hcov := selectChildrenLoop_covers index (childrenOf top index) 0 selection r0 c hget
      simp only [Nat.zero_add] at hcov
      by_cases h1 : rest1 = []
      · subst h1
        simpa using hcov.1
      · apply hcov.2
        intro sel
        have hlt : rest1.length < n := by
          rw [← hlen]; simp
        have := ih rest1.length hlt rest1 (r0 :: index) sel rfl h1 (by simp) hsome
        rw [childrenOf_of_itemAt top r0 index c hc] at this
        cases c with
        | mk hid ex cs => simpa [selectChildrenOfItem, TreeItem.children] using this

theorem mem_selectChildren_of_descendant (top : List TreeItem) (index q : ItemPtr)
    (selection : QItemSelection) (hidx : index ≠ []) (h : isDescendantOf top index q) :
    q ∈ selectChildren top index selection := by
  obtain ⟨rest, hne, hq, hsome⟩ := h
  subst hq
  simp only [selectChildren, hidx, if_false]
  exact mem_selectChildrenLoop_of_descendant top rest.length rest index selection rfl hne hidx hsome

theorem mem_selectChildren_of_mem (top : List TreeItem) (index x : ItemPtr)
    (selection : QItemSelection) (h : x ∈ selection) : x ∈ selectChildren top index selection := by
  unfold selectChildren
  split
  · exact h
  · exact mem_selectChildrenLoop_of_mem x _ index 0 selection h

theorem mem_checkParentsStep_of_mem (top : List TreeItem) (index : ItemPtr)
    (flags : SelectionFlags) (state : QItemSelection × QItemSelection) (parentItem x : ItemPtr)
    (h : x ∈ state.1) : x ∈ (checkParentsStep top index flags state parentItem).1 := by
  unfold checkParentsStep
  simp only
  split
  · exact mem_selectIndex_of_mem _ _ _ h
  · split
    · exact mem_selectIndex_of_mem _ _ _ h
    · exact h

theorem mem_foldl_checkParentsStep_of_mem (top : List TreeItem) (index : ItemPtr)
    (flags : SelectionFlags) (x : ItemPtr) :
    ∀ (parentItems : List ItemPtr) (state : QItemSelection × QItemSelection), x ∈ state.1 →
      x ∈ (parentItems.foldl (checkParentsStep top index flags) state).1 := by
  intro parentItems
  induction parentItems with
  | nil => intro state h; simpa using h
  | cons p ps ih =>
    intro state h
    simp only [List.foldl_cons]
    exact ih _ (mem_checkParentsStep_of_mem top index flags state p x h)

theorem mem_checkParentsSelectedStates_of_mem (top : List TreeItem)
    (findItem : ItemPtr → FindItemResult) (index : ItemPtr) (flags : SelectionFlags)
    (unitedSelection finalSelection : QItemSelection) (x : ItemPtr) (h : x ∈ finalSelection) :
    x ∈ checkParentsSelectedStates top findItem index flags unitedSelection finalSelection := by
  unfold checkParentsSelectedStates
  exact mem_foldl_checkParentsStep_of_mem top index flags x _ _ h

theorem mem_selectInternalStep_of_mem_selectChildren (top : List TreeItem)
    (findItem : ItemPtr → FindItemResult) (current : QItemSelection) (command : SelectionFlags)
    (finalSelection : QItemSelection) (index x : ItemPtr) (hidx : index ≠ [])
    (h : x ∈ selectChildren top index finalSelection) :
    x ∈ selectInternalStep top findItem current command finalSelection index := by
  unfold selectInternalStep
  simp only [hidx, if_false]
  split
  · split
    · exact mem_checkParentsSelectedStates_of_mem _ _ _ _ _ _ _ h
    · exact h
  · exact h

theorem mem_selectInternalStep_of_mem (top : List TreeItem)
    (findItem : ItemPtr → FindItemResult) (current : QItemSelection) (command : SelectionFlags)
    (finalSelection : QItemSelection) (index x : ItemPtr) (h : x ∈ finalSelection) :
    x ∈ selectInternalStep top findItem current command finalSelection index := by
  by_cases hidx : index = []
  · simp [selectInternalStep, hidx, h]
  · exact mem_selectInternalStep_of_mem_selectChildren top findItem current command finalSelection
      index x hidx (mem_selectChildren_of_mem top index x finalSelection h)

theorem foldl_selectInternalStep_spec (top : List TreeItem)
    (findItem : ItemPtr → FindItemResult) (current : QItemSelection) (command : SelectionFlags) :
    ∀ (indexes : List ItemPtr) (finalSelection : QItemSelection),
      (∀ x ∈ finalSelection,
        x ∈ indexes.foldl (selectInternalStep top findItem current command) finalSelection) ∧
      (∀ i ∈ indexes, i ≠ [] → ∀ q, isDescendantOf top i q →
        q ∈ indexes.foldl (selectInternalStep top findItem current command) finalSelection) := by
  intro indexes
  induction indexes with
  | nil => intro finalSelection; simp
  | cons i is ih =>
    intro finalSelection
    have ih1 := ih (selectInternalStep top findItem current command finalSelection i)
    simp only [List.foldl_cons, List.mem_cons, forall_eq_or_imp]
    refine ⟨?_, ?_, ?_⟩
    · intro x hx
      exact ih1.1 x (mem_selectInternalStep_of_mem top findItem current command finalSelection i x hx)
    · intro hi q hq
      apply ih1.1
      exact mem_selectInternalStep_of_mem_selectChildren top findItem current command
        finalSelection i q hi (mem_selectChildren_of_descendant top i q finalSelection hi hq)
    · exact ih1.2

/-- C1: for every item tree, user selection and command, the final selection
that `select` hands to `QItemSelectionModel::select` contains every index of the
user selection and every descendant, at any depth, of each valid index of the
user selection. -/
theorem select_contains_user_and_descendants (top : List TreeItem)
    (findItem : ItemPtr → FindItemResult) (current userSelection : QItemSelection)
    (command : SelectionFlags) :
    (∀ i ∈ userSelection, i ∈ select top findItem current userSelection command) ∧
    (∀ i ∈ userSelection, i ≠ [] → ∀ q, isDescendantOf top i q →
      q ∈ select top findItem current userSelection command) := by
  have h := foldl_selectInternalStep_spec top findItem current command userSelection userSelection
  simpa [select, selectInternal] using h

/-- C2, the code at the failing input: the knob row `[0, 0]` is selected with
`Select` on an empty current selection.  It resolves to a knob, its parent `[0]`
is valid, and the only child of that parent is in the united selection; yet the
final selection is `[[0, 0], [0, 0]]`: `checkParentsSelectedStates` selects the
index it was given a second time, and the index `[0]` of the parent is not in
the final selection. -/
theorem select_parent_not_selected :
    (nodeWithKnobFindItem [0, 0]).found = true ∧
    (nodeWithKnobFindItem [0, 0]).isNodeItem = none ∧
    ([0, 0] : ItemPtr).tail ≠ [] ∧
    allShownChildrenSelected [0]
      (QItemSelection.mergeWith [] (selectChildren nodeWithKnob [0, 0] [[0, 0]]) selectCommand)
      0 (childrenOf nodeWithKnob [0]) = true ∧
    select nodeWithKnob nodeWithKnobFindItem [] [[0, 0]] selectCommand = [[0, 0], [0, 0]] ∧
    [0] ∉ select nodeWithKnob nodeWithKnobFindItem [] [[0, 0]] selectCommand := by
  decide

/-- C7, worked case: the collapsed knob row `[0, 0]` below an expanded, shown
node row is visible, and it stays visible in the tree where it is expanded. -/
theorem isItemVisibleRecursive_iff_witness :
    (([0, 0] : ItemPtr) = [] ∨ (itemAt nodeWithKnob [0, 0]).isSome) ∧
    (isItemVisibleRecursive nodeWithKnob [0, 0] = true ↔
      ([0, 0] : ItemPtr) ≠ [] ∧ hiddenAt nodeWithKnob [0, 0] = false ∧
      ∀ a ∈ properAncestors [0, 0],
        hiddenAt nodeWithKnob a = false ∧ expandedAt nodeWithKnob a = true) ∧
    isItemVisibleRecursive [TreeItem.mk false true [TreeItem.mk false true []]] [0, 0] =
      isItemVisibleRecursive nodeWithKnob [0, 0] :=
  ⟨Or.inr (by decide),
    (isItemVisibleRecursive_iff nodeWithKnob [0, 0] (Or.inr (by decide))).1,
    (isItemVisibleRecursive_iff nodeWithKnob [0, 0] (Or.inr (by decide))).2
      [TreeItem.mk false true [TreeItem.mk false true []]] (by decide) (by decide) (by decide)⟩

/-- C8, the code at the failing input: in `chainOfFour` the row `[0]` is shown
and expanded and the bottom-most visible row of its subtree is `[0, 0, 0, 0]`,
whose rectangle ends at y = 79, so the height of the item and its children is
80; `getHeightForItemAndChildren` descends two levels only, stops at
`[0, 0, 0]` and returns 60. -/
theorem getHeightForItemAndChildren_two_levels :
    hiddenAt chainOfFour [0] = false ∧ expandedAt chainOfFour [0] = true ∧
    bottomMostVisibleRow [0] (TreeItem.mk false true (childrenOf chainOfFour [0])) = [0, 0, 0, 0] ∧
    getTreeBottomItemInternal [0] (TreeItem.mk false true (childrenOf chainOfFour [0])) =
      some [0, 0, 0, 0] ∧
    ((chainRowRect [0, 0, 0, 0]).bottom - (chainRowRect [0]).top) + 1 = 80 ∧
    getHeightForItemAndChildren chainOfFour chainRowRect [0] = some 60 := by
  decide

/-! ### Double click -/

theorem filter_isSelectKeyframes_map_panel (calls : List PanelCall) :
    (calls.map GuiCall.panel).filter GuiCall.isSelectKeyframes = [] := by
  induction calls with
  | nil => rfl
  | cons c cs ih => simp [List.filter_cons, GuiCall.isSelectKeyframes]

/-- Whenever `onItemDoubleClicked` returns, the calls of `selectKeyframes` it
has made are the ones of the specification: one for a knob entry, with that
knob and its dimension and view; one for a table-item entry of type
`eAnimatedItemTypeTableItemAnimation`, with that table item; none for an
unresolved item, a node row or a table-item row of another type. -/
theorem onItemDoubleClicked_selectKeyframes_of_done {α : Type} (findItem : α → FindItemResult)
    (getNodeGui : NodeAnim → Option NodeGui) (item : α) (calls : List GuiCall)
    (hdone : onItemDoubleClicked findItem getNodeGui item = Outcome.done calls) :
    calls.filter GuiCall.isSelectKeyframes =
      if (findItem item).found = false then []
      else
        match (findItem item).isKnob with
        | some k => [GuiCall.selectKeyframesKnob k (findItem item).dim (findItem item).view]
        | none =>
          match (findItem item).isTableItem with
          | some t =>
            if (findItem item).type = eAnimatedItemTypeTableItemAnimation then
              [GuiCall.selectKeyframesTableItem t (findItem item).dim (findItem item).view]
            else []
          | none => [] := by
  simp only [onItemDoubleClicked] at hdone
  generalize findItem item = r at hdone ⊢
  obtain ⟨found, type, isKnob, isTableItem, isNodeItem, view, dim⟩ := r
  cases found with
  | false =>
    simp only [Bool.not_false, if_true, Outcome.done.injEq] at hdone
    subst hdone
    simp
  | true =>
    simp only [Bool.not_true, Bool.false_eq_true, if_false] at hdone ⊢
    split at hdone
    · rename_i panelCalls hpanel
      simp only [Outcome.done.injEq] at hdone
      subst hdone
      have hp : panelCalls.filter GuiCall.isSelectKeyframes = [] := by
        split at hpanel
        · split at hpanel
          · simp only [Outcome.done.injEq] at hpanel
            subst hpanel
            exact filter_isSelectKeyframes_map_panel _
          · cases hpanel
          · cases hpanel
        · simp only [Outcome.done.injEq] at hpanel
          subst hpanel
          rfl
      rw [List.filter_append, hp, List.nil_append]
      cases isKnob with
      | some k => simp [GuiCall.isSelectKeyframes]
      | none =>
        cases isTableItem with
        | none => simp
        | some t =>
          by_cases ht : type = eAnimatedItemTypeTableItemAnimation <;>
            simp [ht, GuiCall.isSelectKeyframes]
    · cases hdone
    · cases hdone

/-- C9, the code at the failing input: a double click on a knob row whose node
has no `NodeGui`.  The item is resolved to a knob entry, so `selectKeyframes` is
due once with that knob; the code first calls `openSettingsPanelForNode`, which
dereferences the null `NodeGui`, and `selectKeyframes` is never reached.  With a
`NodeGui` the same click opens the panel and then selects the keyframes of the
knob once; an unresolved item makes no call at all. -/
theorem onItemDoubleClicked_null_gui :
    (knobOfNodeFindItem [0, 0]).found = true ∧
    (knobOfNodeFindItem [0, 0]).isKnob =
      some { id := 2, getHolder := AnimItemHolder.node { id := 1 } } ∧
    onItemDoubleClicked knobOfNodeFindItem (fun _ => none) ([0, 0] : ItemPtr) =
      Outcome.nullDereference ∧
    onItemDoubleClicked knobOfNodeFindItem (fun n => some (nestedNodeGui n)) ([0, 0] : ItemPtr) =
      Outcome.done
        [GuiCall.panel PanelCall.ensurePanelCreated,
         GuiCall.panel (PanelCall.setVisibleSettingsPanel true),
         GuiCall.panel PanelCall.beginEditKnobs,
         GuiCall.panel (PanelCall.putSettingsPanelFirst (some { id := 1 })),
         GuiCall.panel PanelCall.redrawAllViewers,
         GuiCall.selectKeyframesKnob { id := 2, getHolder := AnimItemHolder.node { id := 1 } }
           0 0] ∧
    onItemDoubleClicked unresolvedContext.findItem (fun _ => none) ([0, 0] : ItemPtr) =
      Outcome.done [] := by
  decide

/-! ### Removing and adding nodes -/

/-- C10: `onNodeAboutToBeRemoved` is a no-op when the node is null or its tree
item is null: it returns normally and the tree, with every parent and child
relation, is the tree it was given. -/
theorem onNodeAboutToBeRemoved_null (model : AnimationModule) (node : Option NodeAnim)
    (w : TreeWidget) (hnull : node = none ∨ ∃ n, node = some n ∧ model.getTreeItem n = none) :
    onNodeAboutToBeRemoved model node w = some w := by
  rcases hnull with h | ⟨n, h, hn⟩
  · subst h; rfl
  · subst h; simp [onNodeAboutToBeRemoved, hn]

theorem mem_parentChain_self (w : TreeWidget) (fuel : Nat) (x : ItemId) :
    x ∈ parentChain w fuel x := by
  cases fuel <;> simp [parentChain]

theorem isInSubtree_self (w : TreeWidget) (c : ItemId) : isInSubtree w c c = true := by
  simp [isInSubtree, mem_parentChain_self]

theorem parentChain_of_par_none (w : TreeWidget) (fuel : Nat) (x : ItemId)
    (h : (w.items x).par = none) : parentChain w fuel x = [x] := by
  cases fuel <;> simp [parentChain, h]

theorem isInSubtree_of_par_none (w : TreeWidget) (c x : ItemId)
    (h : (w.items x).par = none) (hne : x ≠ c) : isInSubtree w c x = false := by
  simp [isInSubtree, parentChain_of_par_none w _ x h, Ne.symm hne]

theorem parentChain_congr (w w1 : TreeWidget) :
    ∀ (fuel : Nat) (x : ItemId),
      (∀ y ∈ parentChain w fuel x, (w1.items y).par = (w.items y).par) →
      parentChain w1 fuel x = parentChain w fuel x := by
  intro fuel
  induction fuel with
  | zero => intro x _; rfl
  | succ fuel ih =>
    intro x h
    have hx := h x (mem_parentChain_self w _ x)
    simp only [parentChain, hx]
    cases hp : (w.items x).par with
    | none => rfl
    | some p =>
      simp only [List.cons.injEq, true_and]
      apply ih
      intro y hy
      apply h
      simp [parentChain, hp, hy]

theorem mem_parentChain_succ (w : TreeWidget) :
    ∀ (fuel : Nat) (x y : ItemId), y ∈ parentChain w fuel x → y ∈ parentChain w (fuel + 1) x := by
  intro fuel
  induction fuel with
  | zero =>
    intro x y h
    simp only [parentChain, List.mem_singleton] at h
    subst h
    exact mem_parentChain_self w _ _
  | succ fuel ih =>
    intro x y h
    rw [parentChain] at h ⊢
    rcases List.mem_cons.mp h with h | h
    · exact List.mem_cons.mpr (Or.inl h)
    · apply List.mem_cons_of_mem
      cases hp : (w.items x).par with
      | none => simp [hp] at h
      | some p =>
        simp only [hp] at h ⊢
        exact ih p y h

theorem mem_of_completeParentChain (w : TreeWidget) :
    ∀ (fuel : Nat) (x : ItemId) (chain : List ItemId),
      completeParentChain w fuel x = some chain →
      ∀ (g : Nat) (y : ItemId), y ∈ parentChain w g x → y ∈ chain := by
  intro fuel
  induction fuel with
  | zero =>
    intro x chain h g y hy
    cases hp : (w.items x).par with
    | some p => simp [completeParentChain, hp] at h
    | none =>
      simp only [completeParentChain, hp, Option.some.injEq] at h
      subst h
      rw [parentChain_of_par_none w g x hp] at hy
      exact hy
  | succ fuel ih =>
    intro x chain h g y hy
    cases hp : (w.items x).par with
    | none =>
      simp only [completeParentChain, hp, Option.some.injEq] at h
      subst h
      rw [parentChain_of_par_none w g x hp] at hy
      exact hy
    | some p =>
      simp only [completeParentChain, hp, Option.map_eq_some'] at h
      obtain ⟨l, hl, hchain⟩ := h
      subst hchain
      cases g with
      | zero =>
        simp only [parentChain, List.mem_singleton] at hy
        subst hy
        exact List.mem_cons_self _ _
      | succ g =>
        simp only [parentChain, hp, List.mem_cons] at hy
        rcases hy with hy | hy
        · subst hy; exact List.mem_cons_self _ _
        · exact List.mem_cons_of_mem _ (ih p l hl g y hy)

theorem parentChain_of_completeParentChain (w : TreeWidget) :
    ∀ (fuel : Nat) (x : ItemId) (chain : List ItemId),
      completeParentChain w fuel x = some chain → parentChain w fuel x = chain := by
  intro fuel
  induction fuel with
  | zero =>
    intro x chain h
    cases hp : (w.items x).par with
    | some p => simp [completeParentChain, hp] at h
    | none =>
      simp only [completeParentChain, hp, Option.some.injEq] at h
      subst h
      rfl
  | succ fuel ih =>
    intro x chain h
    cases hp : (w.items x).par with
    | none =>
      simp only [completeParentChain, hp, Option.some.injEq] at h
      subst h
      simp [parentChain, hp]
    | some p =>
      simp only [completeParentChain, hp, Option.map_eq_some'] at h
      obtain ⟨l, hl, hchain⟩ := h
      subst hchain
      simp [parentChain, hp, ih p l hl]

/-- When the parent chain of `x` ends within `itemCount` steps, an item that
`isInSubtree` does not find above `x` is on no parent chain of `x`. -/
theorem not_mem_parentChain_of_isInSubtree (w : TreeWidget) (c x : ItemId)
    (hend : (completeParentChain w w.itemCount x).isSome = true)
    (h : isInSubtree w c x = false) : ∀ f, c ∉ parentChain w f x := by
  obtain ⟨chain, hchain⟩ := Option.isSome_iff_exists.mp hend
  have hc : c ∉ chain := by
    rw [← parentChain_of_completeParentChain w _ x chain hchain]
    simpa [isInSubtree] using h
  intro f hm
  exact hc (mem_of_completeParentChain w _ x chain hchain f c hm)

theorem removeChild_rootItem (w : TreeWidget) (p c : ItemId) :
    (removeChild w p c).rootItem = w.rootItem := by
  unfold removeChild; split <;> rfl

theorem removeChild_itemCount (w : TreeWidget) (p c : ItemId) :
    (removeChild w p c).itemCount = w.itemCount := by
  unfold removeChild; split <;> rfl

theorem removeChild_children (w : TreeWidget) (p c x : ItemId) :
    ((removeChild w p c).items x).children =
      if x = p then (w.items p).children.erase c else (w.items x).children := by
  unfold removeChild
  split
  · by_cases hxp : x = p
    · subst hxp; simp
    · simp [hxp]
  · rename_i h
    by_cases hxp : x = p
    · subst hxp; simp [List.erase_of_not_mem h]
    · simp [hxp]

theorem removeChild_par (w : TreeWidget) (p c x : ItemId) :
    ((removeChild w p c).items x).par =
      if x = c ∧ c ∈ (w.items p).children then none else (w.items x).par := by
  unfold removeChild
  split
  · rename_i h
    by_cases hxc : x = c <;> simp [hxc, h]
  · rename_i h
    simp [h]

theorem removeChild_view (w : TreeWidget) (p c x : ItemId) :
    ((removeChild w p c).items x).view =
      if c ∈ (w.items p).children ∧ isInSubtree w c x = true then false
      else (w.items x).view := by
  unfold removeChild
  split
  · rename_i h
    by_cases hs : isInSubtree w c x = true <;> simp [h, hs]
  · rename_i h
    simp [h]

theorem removeChild_expanded (w : TreeWidget) (p c x : ItemId) :
    ((removeChild w p c).items x).expanded =
      if c ∈ (w.items p).children ∧ isInSubtree w c x = true then false
      else (w.items x).expanded := by
  unfold removeChild
  split
  · rename_i h
    by_cases hs : isInSubtree w c x = true <;> simp [h, hs]
  · rename_i h
    simp [h]

theorem addChild_rootItem (w : TreeWidget) (p c : ItemId) :
    (addChild w p c).rootItem = w.rootItem := by
  unfold addChild; split <;> rfl

theorem addChild_itemCount (w : TreeWidget) (p c : ItemId) :
    (addChild w p c).itemCount = w.itemCount := by
  unfold addChild; split <;> rfl

theorem addChild_children (w : TreeWidget) (p c x : ItemId) :
    ((addChild w p c).items x).children =
      if ((w.items c).view || (w.items c).par.isSome) = false ∧ x = p then
        (w.items p).children ++ [c]
      else (w.items x).children := by
  unfold addChild
  split
  · rename_i h; simp [h]
  · rename_i h
    have hg : (w.items c).view = false ∧ (w.items c).par = none := by simpa using h
    by_cases hxp : x = p <;> simp [hg.1, hg.2, hxp]

theorem addChild_par (w : TreeWidget) (p c x : ItemId) :
    ((addChild w p c).items x).par =
      if ((w.items c).view || (w.items c).par.isSome) = false ∧ x = c then
        (if p = w.rootItem then none else some p)
      else (w.items x).par := by
  unfold addChild
  split
  · rename_i h; simp [h]
  · rename_i h
    have hg : (w.items c).view = false ∧ (w.items c).par = none := by simpa using h
    by_cases hxc : x = c
    · subst hxc; simp [hg.1, hg.2]
    · simp [hxc]

theorem addChild_view (w : TreeWidget) (p c x : ItemId) :
    ((addChild w p c).items x).view =
      if ((w.items c).view || (w.items c).par.isSome) = false ∧ isInSubtree w c x = true then
        (w.items p).view
      else (w.items x).view := by
  unfold addChild
  split
  · rename_i h; simp [h]
  · rename_i h
    have hg : (w.items c).view = false ∧ (w.items c).par = none := by simpa using h
    by_cases hs : isInSubtree w c x = true <;> simp [hg.1, hg.2, hs]

theorem addChild_expanded (w : TreeWidget) (p c x : ItemId) :
    ((addChild w p c).items x).expanded = (w.items x).expanded := by
  unfold addChild
  split <;> rfl

theorem setExpanded_rootItem (w : TreeWidget) (i : ItemId) (b : Bool) :
    (setExpanded w i b).rootItem = w.rootItem := by
  unfold setExpanded; split <;> rfl

theorem setExpanded_itemCount (w : TreeWidget) (i : ItemId) (b : Bool) :
    (setExpanded w i b).itemCount = w.itemCount := by
  unfold setExpanded; split <;> rfl

theorem setExpanded_children (w : TreeWidget) (i : ItemId) (b : Bool) (x : ItemId) :
    ((setExpanded w i b).items x).children = (w.items x).children := by
  unfold setExpanded
  split
  · by_cases hx : x = i <;> simp_all [TreeWidget.modify]
  · rfl

theorem setExpanded_par (w : TreeWidget) (i : ItemId) (b : Bool) (x : ItemId) :
    ((setExpanded w i b).items x).par = (w.items x).par := by
  unfold setExpanded
  split
  · by_cases hx : x = i <;> simp_all [TreeWidget.modify]
  · rfl

theorem setExpanded_view (w : TreeWidget) (i : ItemId) (b : Bool) (x : ItemId) :
    ((setExpanded w i b).items x).view = (w.items x).view := by
  unfold setExpanded
  split
  · by_cases hx : x = i <;> simp_all [TreeWidget.modify]
  · rfl

theorem setExpanded_expanded (w : TreeWidget) (i : ItemId) (b : Bool) (x : ItemId) :
    ((setExpanded w i b).items x).expanded =
      if x = i ∧ (w.items i).view = true then b else (w.items x).expanded := by
  unfold setExpanded
  split
  · rename_i h
    by_cases hx : x = i <;> simp_all [TreeWidget.modify]
  · rename_i h
    simp [h]

theorem reparentItem_of_par (w : TreeWidget) (c t : ItemId) (newParent : ItemId)
    (h : (w.items c).par = some t) :
    reparentItem w c (some newParent) = some (addChild (removeChild w t c) newParent c) := by
  simp [reparentItem, getParentItem, h]

theorem removeChild_guard (w : TreeWidget) (q c : ItemId) (h : c ∈ (w.items q).children) :
    (((removeChild w q c).items c).view || ((removeChild w q c).items c).par.isSome) = false := by
  rw [removeChild_view, removeChild_par, if_pos ⟨h, isInSubtree_self w c⟩, if_pos ⟨rfl, h⟩]
  rfl

/-- The optional `refreshVisibility` of the removal loop keeps the shape. -/
theorem refreshOfFound_structure (model : AnimationModule) (h : model.RefreshKeepsStructure)
    (o : Option NodeAnim) (w : TreeWidget) :
    (match o with
      | some n => model.refreshVisibility n w
      | none => w).rootItem = w.rootItem ∧
    ∀ i, ((match o with
      | some n => model.refreshVisibility n w
      | none => w).items i).par = (w.items i).par ∧
      ((match o with
      | some n => model.refreshVisibility n w
      | none => w).items i).children = (w.items i).children := by
  cases o with
  | none => simp
  | some n =>
    refine ⟨(h n w).1, fun i => ⟨((h n w).2 i).1, ((h n w).2 i).2.2.1⟩⟩

theorem onNodeAboutToBeRemovedLoop_spec (model : AnimationModule)
    (hrefresh : model.RefreshKeepsStructure) (t p : ItemId) (htp : t ≠ p) :
    ∀ (cs : List ItemId) (w : TreeWidget), cs.Nodup →
      (∀ c ∈ cs, (w.items c).par = some t ∧ c ∈ (w.items t).children) →
      ∃ w1, onNodeAboutToBeRemovedLoop model p cs w = some w1 ∧
        (w1.items p).children = (w.items p).children ++ cs ∧
        (w1.items t).children = (w.items t).children.diff cs := by
  intro cs
  induction cs with
  | nil => intro w _ _; exact ⟨w, rfl, by simp, by simp⟩
  | cons c cs ih =>
    intro w hnd hcs
    have hc := hcs c (List.mem_cons_self _ _)
    have hnd1 := List.nodup_cons.mp hnd
    simp only [onNodeAboutToBeRemovedLoop, reparentItem_of_par w c t p hc.1]
    have hguard := removeChild_guard w t c hc.2
    have hst := refreshOfFound_structure model hrefresh (model.findItem c).isNodeItem
      (addChild (removeChild w t c) p c)
    have hchildren : ∀ x, ((setExpanded (match (model.findItem c).isNodeItem with
        | some n => model.refreshVisibility n (addChild (removeChild w t c) p c)
        | none => addChild (removeChild w t c) p c) c true).items x).children =
        if x = p then (w.items p).children ++ [c]
        else if x = t then (w.items t).children.erase c else (w.items x).children := by
      intro x
      rw [setExpanded_children, (hst.2 x).2, addChild_children, removeChild_children,
        removeChild_children]
      by_cases hxp : x = p
      · subst hxp
        simp [hguard, Ne.symm htp]
      · simp [hxp]
    have hpar : ∀ x, x ≠ c → ((setExpanded (match (model.findItem c).isNodeItem with
        | some n => model.refreshVisibility n (addChild (removeChild w t c) p c)
        | none => addChild (removeChild w t c) p c) c true).items x).par = (w.items x).par := by
      intro x hx
      rw [setExpanded_par, (hst.2 x).1, addChild_par]
      simp [hx, removeChild_par]
    obtain ⟨w1, hw1, hp1, ht1⟩ := ih _ hnd1.2 (by
      intro c1 hc1
      have hne : c1 ≠ c := by
        intro h; subst h; exact hnd1.1 hc1
      have h1 := hcs c1 (List.mem_cons_of_mem _ hc1)
      refine ⟨by rw [hpar c1 hne]; exact h1.1, ?_⟩
      rw [hchildren t]
      simp only [htp, if_false, if_true]
      exact (List.mem_erase_of_ne hne).mpr h1.2)
    refine ⟨w1, hw1, ?_, ?_⟩
    · rw [hp1, hchildren p]; simp
    · rw [ht1, hchildren t]
      simp [htp, List.diff_cons]

/-- The `switch` of `onNodeAboutToBeRemoved` picks the six node types. -/
theorem isNodeContextType_eq (ty : AnimatedItemTypeEnum) :
    isNodeContextType ty =
      decide (ty ∈ [eAnimatedItemTypeGroup, eAnimatedItemTypeFrameRange,
        eAnimatedItemTypeCommon, eAnimatedItemTypeReader, eAnimatedItemTypeRetime,
        eAnimatedItemTypeTimeOffset]) := by
  cases ty <;> decide

/-- C3: let the tree item `t` of the node be a child of `p` (`p` is the
invisible root for a top-level item), with children that point back to it and no
child listed twice.  After `onNodeAboutToBeRemoved` the children of `t` whose
context type is Group, FrameRange, Common, Reader, Retime or TimeOffset have
been appended to the children of `p` in the order they had below `t`; the
children of `t` whose context type is TableItemAnimation, KnobDim, KnobRoot,
KnobView or TableItemRoot are still children of `t`; and `t` is not a child of
`p` any more. -/
theorem onNodeAboutToBeRemoved_moves_node_children (model : AnimationModule)
    (hrefresh : model.RefreshKeepsStructure) (node : NodeAnim) (w : TreeWidget) (t p : ItemId)
    (hitem : model.getTreeItem node = some t)
    (hparent : getParentItem w t = some p)
    (hchild : t ∈ (w.items p).children)
    (htp : t ≠ p)
    (hback : ∀ c ∈ (w.items t).children, (w.items c).par = some t)
    (hnodupT : (w.items t).children.Nodup)
    (hnodupP : (w.items p).children.Nodup) :
    ∃ w1, onNodeAboutToBeRemoved model (some node) w = some w1 ∧
      (w1.items p).children = (w.items p).children.erase t ++
        (w.items t).children.filter (fun c => decide ((w.items c).contextType ∈
          [eAnimatedItemTypeGroup, eAnimatedItemTypeFrameRange, eAnimatedItemTypeCommon,
            eAnimatedItemTypeReader, eAnimatedItemTypeRetime, eAnimatedItemTypeTimeOffset])) ∧
      (∀ c ∈ (w.items t).children,
        (w.items c).contextType ∈
          [eAnimatedItemTypeGroup, eAnimatedItemTypeFrameRange, eAnimatedItemTypeCommon,
            eAnimatedItemTypeReader, eAnimatedItemTypeRetime, eAnimatedItemTypeTimeOffset] →
        c ∈ (w1.items p).children) ∧
      (∀ c ∈ (w.items t).children,
        (w.items c).contextType ∈
          [eAnimatedItemTypeTableItemAnimation, eAnimatedItemTypeKnobDim,
            eAnimatedItemTypeKnobRoot, eAnimatedItemTypeKnobView,
            eAnimatedItemTypeTableItemRoot] →
        c ∈ (w1.items t).children) ∧
      t ∉ (w1.items p).children := by
  have hfun : (fun c => isNodeContextType (w.items c).contextType) =
      (fun c => decide ((w.items c).contextType ∈
          [eAnimatedItemTypeGroup, eAnimatedItemTypeFrameRange, eAnimatedItemTypeCommon,
            eAnimatedItemTypeReader, eAnimatedItemTypeRetime, eAnimatedItemTypeTimeOffset])) :=
    funext (fun c => isNodeContextType_eq _)
  have hfilter : ∀ c ∈ (w.items t).children.filter
      (fun c => isNodeContextType (w.items c).contextType),
      (w.items c).par = some t ∧ c ∈ (w.items t).children := by
    intro c hc
    have := (List.mem_filter.mp hc).1
    exact ⟨hback c this, this⟩
  obtain ⟨w0, hw0, hp0, ht0⟩ := onNodeAboutToBeRemovedLoop_spec model hrefresh t p htp
    _ w (hnodupT.filter _) hfilter
  have hself : t ∉ (w.items t).children := by
    intro h
    have h1 := hback t h
    simp only [getParentItem, h1, Option.some.injEq] at hparent
    exact htp hparent
  have hnotmoved : t ∉ (w.items t).children.filter
      (fun c => isNodeContextType (w.items c).contextType) :=
    fun h => hself (List.mem_filter.mp h).1
  have hfinal : ((removeChild w0 p t).items p).children = (w.items p).children.erase t ++
      (w.items t).children.filter (fun c => isNodeContextType (w.items c).contextType) := by
    rw [removeChild_children, if_pos rfl, hp0, List.erase_append_left _ hchild]
  refine ⟨removeChild w0 p t, ?_, ?_, ?_, ?_, ?_⟩
  · simp [onNodeAboutToBeRemoved, hitem, hparent, hw0]
  · rw [hfinal, hfun]
  · intro c hc hn
    rw [hfinal]
    apply List.mem_append_right
    refine List.mem_filter.mpr ⟨hc, ?_⟩
    rw [isNodeContextType_eq]
    exact decide_eq_true hn
  · intro c hc hn
    rw [removeChild_children, if_neg htp, ht0]
    apply List.mem_diff_of_mem hc
    intro hmem
    have h1 := (List.mem_filter.mp hmem).2
    revert hn h1
    cases (w.items c).contextType <;> simp [isNodeContextType]
  · rw [hfinal, List.mem_append]
    rintro (h | h)
    · exact (List.Nodup.not_mem_erase hnodupP) h
    · exact hnotmoved h

theorem getParentItem_isSome_iff (w : TreeWidget) (x : ItemId) :
    (getParentItem w x).isSome = true ↔
      (w.items x).par.isSome = true ∨ (w.items x).view = true := by
  unfold getParentItem
  cases (w.items x).par with
  | some q => simp
  | none => cases (w.items x).view <;> simp

theorem removeChild_view_of_par_none (w : TreeWidget) (p c x : ItemId)
    (h : (w.items x).par = none) (hne : x ≠ c) :
    ((removeChild w p c).items x).view = (w.items x).view := by
  rw [removeChild_view, isInSubtree_of_par_none w c x h hne]
  simp

theorem addChild_view_of_par_none (w : TreeWidget) (p c x : ItemId)
    (h : (w.items x).par = none) (hne : x ≠ c) :
    ((addChild w p c).items x).view = (w.items x).view := by
  rw [addChild_view, isInSubtree_of_par_none w c x h hne]
  simp

theorem addChild_of_guard (w : TreeWidget) (p c : ItemId)
    (h : ((w.items c).view || (w.items c).par.isSome) = true) : addChild w p c = w := by
  simp [addChild, h]

/-- One round of the loop of `onNodeAdded`, for a child item that has a parent
item: the state after `reparentItem`, `refreshVisibility` and `setExpanded`. -/
theorem onNodeAddedLoop_cons (model : AnimationModule) (t : ItemId) (c : NodeAnim)
    (cs : List NodeAnim) (w : TreeWidget) (ci q : ItemId)
    (hci : model.getTreeItem c = some ci) (hq : getParentItem w ci = some q) :
    onNodeAddedLoop model t (c :: cs) w =
      onNodeAddedLoop model t cs
        (setExpanded (model.refreshVisibility c (addChild (removeChild w q ci) t ci)) ci true) := by
  simp [onNodeAddedLoop, hci, reparentItem, hq]

theorem onNodeAdded_round_rootItem (model : AnimationModule)
    (hrefresh : model.RefreshKeepsStructure) (t : ItemId) (c : NodeAnim) (w : TreeWidget)
    (ci q : ItemId) :
    (setExpanded (model.refreshVisibility c (addChild (removeChild w q ci) t ci)) ci true).rootItem
      = w.rootItem := by
  rw [setExpanded_rootItem, (hrefresh c _).1, addChild_rootItem, removeChild_rootItem]

theorem onNodeAdded_round_children (model : AnimationModule)
    (hrefresh : model.RefreshKeepsStructure) (t : ItemId) (c : NodeAnim) (w : TreeWidget)
    (ci q x : ItemId) :
    ((setExpanded (model.refreshVisibility c (addChild (removeChild w q ci) t ci)) ci true).items
        x).children =
      if ((((removeChild w q ci).items ci).view ||
          ((removeChild w q ci).items ci).par.isSome) = false ∧ x = t) then
        (if t = q then (w.items q).children.erase ci else (w.items t).children) ++ [ci]
      else if x = q then (w.items q).children.erase ci else (w.items x).children := by
  rw [setExpanded_children, ((hrefresh c _).2 x).2.2.1, addChild_children]
  simp only [removeChild_children]

theorem onNodeAdded_round_par (model : AnimationModule)
    (hrefresh : model.RefreshKeepsStructure) (t : ItemId) (c : NodeAnim) (w : TreeWidget)
    (ci q x : ItemId) (hx : x ≠ ci) :
    ((setExpanded (model.refreshVisibility c (addChild (removeChild w q ci) t ci)) ci true).items
        x).par = (w.items x).par := by
  rw [setExpanded_par, ((hrefresh c _).2 x).1, addChild_par]
  simp [hx, removeChild_par]

theorem onNodeAdded_round_view_of_par_none (model : AnimationModule)
    (hrefresh : model.RefreshKeepsStructure) (t : ItemId) (c : NodeAnim) (w : TreeWidget)
    (ci q x : ItemId) (hx : x ≠ ci) (hpar : (w.items x).par = none) :
    ((setExpanded (model.refreshVisibility c (addChild (removeChild w q ci) t ci)) ci true).items
        x).view = (w.items x).view := by
  have hpar1 : ((removeChild w q ci).items x).par = none := by
    rw [removeChild_par]; simp [hx, hpar]
  rw [setExpanded_view, ((hrefresh c _).2 x).2.1,
    addChild_view_of_par_none _ t ci x hpar1 hx, removeChild_view_of_par_none w q ci x hpar hx]

theorem onNodeAdded_round_hasParent (model : AnimationModule)
    (hrefresh : model.RefreshKeepsStructure) (t : ItemId) (c : NodeAnim) (w : TreeWidget)
    (ci q x : ItemId) (ht : t ≠ w.rootItem) (hx : (getParentItem w x).isSome = true) :
    (getParentItem
      (setExpanded (model.refreshVisibility c (addChild (removeChild w q ci) t ci)) ci true)
      x).isSome = true := by
  rw [getParentItem_isSome_iff] at hx ⊢
  by_cases hxc : x = ci
  · subst hxc
    rw [setExpanded_par, setExpanded_view, ((hrefresh c _).2 x).1, ((hrefresh c _).2 x).2.1]
    by_cases hg : (((removeChild w q x).items x).view ||
        ((removeChild w q x).items x).par.isSome) = false
    · left
      rw [addChild_par, removeChild_rootItem, if_pos ⟨hg, rfl⟩, if_neg ht]
      rfl
    · have hg1 : (((removeChild w q x).items x).view ||
          ((removeChild w q x).items x).par.isSome) = true := by
        cases hb : (((removeChild w q x).items x).view ||
          ((removeChild w q x).items x).par.isSome) with
        | true => rfl
        | false => exact absurd hb hg
      rw [addChild_of_guard _ t x hg1]
      simp only [Bool.or_eq_true] at hg1
      exact hg1.symm
  · rw [onNodeAdded_round_par model hrefresh t c w ci q x hxc]
    cases hp : (w.items x).par with
    | some y => left; rfl
    | none =>
      right
      rw [onNodeAdded_round_view_of_par_none model hrefresh t c w ci q x hxc hp]
      simpa [hp] using hx

theorem onNodeAddedLoop_keeps_item (model : AnimationModule)
    (hrefresh : model.RefreshKeepsStructure) (t : ItemId) :
    ∀ (cs : List NodeAnim) (w : TreeWidget), t ≠ w.rootItem →
      (∀ c ∈ cs, ∃ ci, model.getTreeItem c = some ci ∧ ci ≠ t ∧
        (getParentItem w ci).isSome = true) →
      ∃ w1, onNodeAddedLoop model t cs w = some w1 ∧ w1.rootItem = w.rootItem ∧
        (w1.items t).par = (w.items t).par ∧
        ∀ x, t ∈ (w.items x).children → t ∈ (w1.items x).children := by
  intro cs
  induction cs with
  | nil => intro w _ _; exact ⟨w, rfl, rfl, rfl, fun _ h => h⟩
  | cons c cs ih =>
    intro w ht hcs
    obtain ⟨ci, hci, hne, hsome⟩ := hcs c (List.mem_cons_self _ _)
    obtain ⟨q, hq⟩ := Option.isSome_iff_exists.mp hsome
    rw [onNodeAddedLoop_cons model t c cs w ci q hci hq]
    have hroot := onNodeAdded_round_rootItem model hrefresh t c w ci q
    obtain ⟨w1, hw1, hr1, hp1, hc1⟩ := ih _ (by rw [hroot]; exact ht) (by
      intro c1 hc1
      obtain ⟨cj, hcj, hnej, hsomej⟩ := hcs c1 (List.mem_cons_of_mem _ hc1)
      exact ⟨cj, hcj, hnej, onNodeAdded_round_hasParent model hrefresh t c w ci q cj ht hsomej⟩)
    refine ⟨w1, hw1, by rw [hr1, hroot], ?_, ?_⟩
    · rw [hp1, onNodeAdded_round_par model hrefresh t c w ci q t (Ne.symm hne)]
    · intro x hx
      apply hc1
      rw [onNodeAdded_round_children model hrefresh]
      have hmem_erase : ∀ l : List ItemId, t ∈ l → t ∈ l.erase ci :=
        fun l h => (List.mem_erase_of_ne (Ne.symm hne)).mpr h
      split
      · rename_i hg
        obtain ⟨_, hxt⟩ := hg
        subst hxt
        apply List.mem_append_left
        split
        · rename_i htq
          rw [← htq]
          exact hmem_erase _ hx
        · exact hx
      · split
        · rename_i hxq
          rw [← hxq]
          exact hmem_erase _ hx
        · exact hx

theorem addChild_fresh_hasParent (w : TreeWidget) (x t ci : ItemId) (hne : ci ≠ t)
    (hsome : (getParentItem w ci).isSome = true) :
    (getParentItem (addChild w x t) ci).isSome = true := by
  rw [getParentItem_isSome_iff] at hsome ⊢
  rw [addChild_par, if_neg (fun h => hne h.2)]
  cases hp : (w.items ci).par with
  | some y => left; rfl
  | none =>
    right
    rw [addChild_view_of_par_none w x t ci hp hne]
    simpa [hp] using hsome

/-- After a fresh item `t` has been added below `x`, the rest of `onNodeAdded`
succeeds and leaves `t` a child of `x`. -/
theorem onNodeAdded_after_attach (model : AnimationModule)
    (hrefresh : model.RefreshKeepsStructure) (node : NodeAnim) (w : TreeWidget) (t x : ItemId)
    (hfresh : (w.items t).par = none ∧ (w.items t).view = false)
    (hroot : t ≠ w.rootItem)
    (hchildren : ∀ c ∈ model.getChildrenNodes node, ∃ ci, model.getTreeItem c = some ci ∧
      ci ≠ t ∧ (getParentItem w ci).isSome = true) :
    ∃ w1, onNodeAddedLoop model t (model.getChildrenNodes node) (addChild w x t) = some w1 ∧
      t ∈ ((setExpanded (model.refreshVisibility node w1) t true).items x).children ∧
      ((setExpanded (model.refreshVisibility node w1) t true).items t).par =
        if x = w.rootItem then none else some x := by
  have hguard : ((w.items t).view || (w.items t).par.isSome) = false := by
    simp [hfresh.1, hfresh.2]
  obtain ⟨w1, hw1, _, hp1, hc1⟩ := onNodeAddedLoop_keeps_item model hrefresh t
    (model.getChildrenNodes node) (addChild w x t) (by rw [addChild_rootItem]; exact hroot) (by
      intro c hc
      obtain ⟨ci, hci, hne, hsome⟩ := hchildren c hc
      exact ⟨ci, hci, hne, addChild_fresh_hasParent w x t ci hne hsome⟩)
  refine ⟨w1, hw1, ?_, ?_⟩
  · rw [setExpanded_children, ((hrefresh node w1).2 x).2.2.1]
    apply hc1
    rw [addChild_children]
    simp [hguard]
  · rw [setExpanded_par, ((hrefresh node w1).2 t).1, hp1, addChild_par]
    simp [hguard]

/-- C4: for a node whose tree item `t` is new (no parent, not in the widget),
whose children nodes have tree items other than `t` that are in the tree, and
whose time node or group, when there is one, has a tree item: after
`onNodeAdded` the item `t` is a child of the item of the nearest time node when
there is one, also when the node is in a group; otherwise a child of the item
of its group when there is one; otherwise a top-level item. -/
theorem onNodeAdded_parent (model : AnimationModule)
    (hrefresh : model.RefreshKeepsStructure) (node : NodeAnim) (w : TreeWidget) (t : ItemId)
    (hitem : model.getTreeItem node = some t)
    (hfresh : (w.items t).par = none ∧ (w.items t).view = false)
    (hroot : t ≠ w.rootItem)
    (htime : ∀ m, model.getNearestTimeNodeFromOutputs node = some m →
      (model.getTreeItem m).isSome = true)
    (hgroup : ∀ g, model.getGroupNodeAnim node = some g → (model.getTreeItem g).isSome = true)
    (hchildren : ∀ c ∈ model.getChildrenNodes node, ∃ ci, model.getTreeItem c = some ci ∧
      ci ≠ t ∧ (getParentItem w ci).isSome = true) :
    ∃ w1, onNodeAdded model node w = some w1 ∧
      (∀ m, model.getNearestTimeNodeFromOutputs node = some m →
        ∃ x, model.getTreeItem m = some x ∧ t ∈ (w1.items x).children) ∧
      (model.getNearestTimeNodeFromOutputs node = none →
        ∀ g, model.getGroupNodeAnim node = some g →
          ∃ x, model.getTreeItem g = some x ∧ t ∈ (w1.items x).children) ∧
      (model.getNearestTimeNodeFromOutputs node = none → model.getGroupNodeAnim node = none →
        t ∈ (w1.items w.rootItem).children ∧ (w1.items t).par = none) := by
  cases hm : model.getNearestTimeNodeFromOutputs node with
  | some m =>
    obtain ⟨x, hx⟩ := Option.isSome_iff_exists.mp (htime m hm)
    obtain ⟨w1, hw1, hmem, _⟩ :=
      onNodeAdded_after_attach model hrefresh node w t x hfresh hroot hchildren
    refine ⟨setExpanded (model.refreshVisibility node w1) t true, ?_, ?_, ?_, ?_⟩
    · simp [onNodeAdded, hitem, hm, hx, hw1]
    · intro m1 hm1
      cases hm1
      exact ⟨x, hx, hmem⟩
    · intro h; cases h
    · intro h; cases h
  | none =>
    cases hg : model.getGroupNodeAnim node with
    | some g =>
      obtain ⟨x, hx⟩ := Option.isSome_iff_exists.mp (hgroup g hg)
      obtain ⟨w1, hw1, hmem, _⟩ :=
        onNodeAdded_after_attach model hrefresh node w t x hfresh hroot hchildren
      refine ⟨setExpanded (model.refreshVisibility node w1) t true, ?_, ?_, ?_, ?_⟩
      · simp [onNodeAdded, hitem, hm, hg, hx, hw1]
      · intro m1 hm1; cases hm1
      · intro _ g1 hg1
        cases hg1
        exact ⟨x, hx, hmem⟩
      · intro _ h; cases h
    | none =>
      obtain ⟨w1, hw1, hmem, hpar⟩ :=
        onNodeAdded_after_attach model hrefresh node w t w.rootItem hfresh hroot hchildren
      refine ⟨setExpanded (model.refreshVisibility node w1) t true, ?_, ?_, ?_, ?_⟩
      · simp [onNodeAdded, hitem, hm, hg, addTopLevelItem, hw1]
      · intro m1 hm1; cases hm1
      · intro _ g1 hg1; cases hg1
      · intro _ _
        exact ⟨hmem, by simpa using hpar⟩

theorem getParentItem_congr (w w1 : TreeWidget) (x : ItemId)
    (hp : (w1.items x).par = (w.items x).par) (hv : (w1.items x).view = (w.items x).view)
    (hr : w1.rootItem = w.rootItem) : getParentItem w1 x = getParentItem w x := by
  simp [getParentItem, hp, hv, hr]

theorem getParentItem_of_par (w : TreeWidget) (x p : ItemId) (h : (w.items x).par = some p) :
    getParentItem w x = some p := by
  simp [getParentItem, h]

theorem getParentItem_congr_of_par (w w1 : TreeWidget) (x : ItemId)
    (hp : (w1.items x).par = (w.items x).par)
    (hv : (w.items x).par = none → (w1.items x).view = (w.items x).view)
    (hr : w1.rootItem = w.rootItem) : getParentItem w1 x = getParentItem w x := by
  cases hpar : (w.items x).par with
  | some y =>
    rw [getParentItem_of_par w x y hpar, getParentItem_of_par w1 x y (by rw [hp, hpar])]
  | none => exact getParentItem_congr w w1 x hp (hv hpar) hr

theorem isInSubtree_eq_false (w : TreeWidget) (c x : ItemId)
    (h : ∀ f, c ∉ parentChain w f x) : isInSubtree w c x = false := by
  simp [isInSubtree, h]

theorem onNodeAddedRound_getParentItem (model : AnimationModule)
    (hrefresh : model.RefreshKeepsStructure) (t : ItemId) (c : NodeAnim) (w : TreeWidget)
    (ci q x : ItemId) (hx : x ≠ ci) :
    getParentItem (onNodeAddedRound model t c w ci q) x = getParentItem w x :=
  getParentItem_congr_of_par w _ x (onNodeAdded_round_par model hrefresh t c w ci q x hx)
    (onNodeAdded_round_view_of_par_none model hrefresh t c w ci q x hx)
    (onNodeAdded_round_rootItem model hrefresh t c w ci q)

theorem onNodeAddedRound_parentChain (model : AnimationModule)
    (hrefresh : model.RefreshKeepsStructure) (t : ItemId) (c : NodeAnim) (w : TreeWidget)
    (ci q x : ItemId) (f : Nat) (hx : ci ∉ parentChain w f x) :
    parentChain (onNodeAddedRound model t c w ci q) f x = parentChain w f x := by
  apply parentChain_congr
  intro y hy
  exact onNodeAdded_round_par model hrefresh t c w ci q y (fun h => hx (h ▸ hy))

/-- What one round of the loop of `onNodeAdded` does to a well-formed tree in
which the child row `ci` is not above the row `t` it is moved under. -/
theorem onNodeAddedRound_facts (model : AnimationModule)
    (hrefresh : model.RefreshKeepsStructure) (t : ItemId) (c : NodeAnim) (w : TreeWidget)
    (ci q : ItemId) (hwf : w.WellFormed) (hq : getParentItem w ci = some q)
    (hcr : ci ≠ w.rootItem) (ht : t ≠ w.rootItem)
    (habove : ∀ f, ci ∉ parentChain w f t) :
    (onNodeAddedRound model t c w ci q).rootItem = w.rootItem ∧
    (∀ x, ((onNodeAddedRound model t c w ci q).items x).children =
      if x = t then (if t = q then (w.items q).children.erase ci else (w.items t).children) ++ [ci]
      else if x = q then (w.items q).children.erase ci else (w.items x).children) ∧
    ((onNodeAddedRound model t c w ci q).items ci).par = some t ∧
    ((onNodeAddedRound model t c w ci q).items ci).view = (w.items t).view ∧
    ((w.items t).view = true → ((onNodeAddedRound model t c w ci q).items ci).expanded = true) ∧
    (∀ x, (∀ f, ci ∉ parentChain w f x) →
      ((onNodeAddedRound model t c w ci q).items x).par = (w.items x).par ∧
      ((onNodeAddedRound model t c w ci q).items x).view = (w.items x).view ∧
      ((onNodeAddedRound model t c w ci q).items x).expanded = (w.items x).expanded) := by
  have hmem : ci ∈ (w.items q).children := hwf.child_of_parent ci q hcr hq
  have hguard := removeChild_guard w q ci hmem
  have hchain1 : ∀ x, (∀ f, ci ∉ parentChain w f x) →
      ∀ f, ci ∉ parentChain (removeChild w q ci) f x := by
    intro x hx f
    rw [parentChain_congr w (removeChild w q ci) f x (by
      intro y hy
      have hyne : y ≠ ci := fun h => hx f (h ▸ hy)
      simp [removeChild_par, hyne])]
    exact hx f
  have hkeep : ∀ x, (∀ f, ci ∉ parentChain w f x) →
      ((addChild (removeChild w q ci) t ci).items x).view = (w.items x).view := by
    intro x hx
    have h1 := isInSubtree_eq_false _ ci x (hchain1 x hx)
    have h0 := isInSubtree_eq_false w ci x hx
    rw [addChild_view, if_neg (by rw [h1]; simp), removeChild_view, if_neg (by rw [h0]; simp)]
  have hview : ((onNodeAddedRound model t c w ci q).items ci).view = (w.items t).view := by
    unfold onNodeAddedRound
    have h0 := isInSubtree_eq_false w ci t habove
    rw [setExpanded_view, ((hrefresh c _).2 ci).2.1, addChild_view,
      if_pos (And.intro hguard (isInSubtree_self _ ci)), removeChild_view,
      if_neg (by rw [h0]; simp)]
  refine ⟨onNodeAdded_round_rootItem model hrefresh t c w ci q, ?_, ?_, hview, ?_, ?_⟩
  · intro x
    unfold onNodeAddedRound
    rw [onNodeAdded_round_children model hrefresh]
    by_cases hxt : x = t
    · rw [if_pos (And.intro hguard hxt), if_pos hxt]
    · rw [if_neg (fun h => hxt h.2), if_neg hxt]
  · unfold onNodeAddedRound
    rw [setExpanded_par, ((hrefresh c _).2 ci).1, addChild_par, removeChild_rootItem,
      if_pos (And.intro hguard rfl), if_neg ht]
  · intro hv
    have hv1 : ((model.refreshVisibility c (addChild (removeChild w q ci) t ci)).items ci).view
        = true := by
      have := hview
      unfold onNodeAddedRound at this
      rw [setExpanded_view] at this
      rw [this, hv]
    unfold onNodeAddedRound
    rw [setExpanded_expanded]
    simp [hv1]
  · intro x hx
    have hxc : x ≠ ci := fun h => hx 0 (h ▸ mem_parentChain_self w 0 x)
    refine ⟨onNodeAdded_round_par model hrefresh t c w ci q x hxc, ?_, ?_⟩
    · unfold onNodeAddedRound
      rw [setExpanded_view, ((hrefresh c _).2 x).2.1]
      exact hkeep x hx
    · unfold onNodeAddedRound
      have h0 := isInSubtree_eq_false w ci x hx
      rw [setExpanded_expanded, if_neg (fun h => hxc h.1), ((hrefresh c _).2 x).2.2.2.1,
        addChild_expanded, removeChild_expanded, if_neg (by rw [h0]; simp)]

/-- One round of the loop of `onNodeAdded` keeps the tree well formed. -/
theorem onNodeAddedRound_wellFormed (model : AnimationModule)
    (hrefresh : model.RefreshKeepsStructure) (t : ItemId) (c : NodeAnim) (w : TreeWidget)
    (ci q : ItemId) (hwf : w.WellFormed) (hq : getParentItem w ci = some q)
    (hcr : ci ≠ w.rootItem) (ht : t ≠ w.rootItem)
    (habove : ∀ f, ci ∉ parentChain w f t) :
    (onNodeAddedRound model t c w ci q).WellFormed := by
  obtain ⟨hroot, hch, hpar, _, _, _⟩ :=
    onNodeAddedRound_facts model hrefresh t c w ci q hwf hq hcr ht habove
  have hmem : ci ∈ (w.items q).children := hwf.child_of_parent ci q hcr hq
  have honly : ∀ p, ci ∈ (w.items p).children → p = q := by
    intro p hp
    have := hwf.parent_of_child p ci hp
    rw [hq] at this
    exact (Option.some.inj this).symm
  have hgone : ∀ p, ci ∉ (if p = q then (w.items q).children.erase ci
      else (w.items p).children) := by
    intro p
    split
    · exact List.Nodup.not_mem_erase (hwf.nodup q)
    · rename_i hpq
      exact fun h => hpq (honly p h)
  have hgp : ∀ x, x ≠ ci →
      getParentItem (onNodeAddedRound model t c w ci q) x = getParentItem w x :=
    fun x hx => onNodeAddedRound_getParentItem model hrefresh t c w ci q x hx
  have hold : ∀ p x, x ≠ ci →
      (x ∈ ((onNodeAddedRound model t c w ci q).items p).children ↔
        x ∈ (w.items p).children) := by
    intro p x hx
    rw [hch p]
    by_cases hpt : p = t
    · subst hpt
      simp only [if_true, List.mem_append, List.mem_singleton, hx, or_false]
      split
      · rename_i hpq
        rw [← hpq]
        exact List.mem_erase_of_ne hx
      · rfl
    · simp only [hpt, if_false]
      split
      · rename_i hpq
        rw [← hpq]
        exact List.mem_erase_of_ne hx
      · rfl
  refine ⟨?_, ?_, ?_⟩
  · intro p x hx
    by_cases hxc : x = ci
    · subst hxc
      rw [hch p] at hx
      by_cases hpt : p = t
      · subst hpt
        exact getParentItem_of_par _ _ _ hpar
      · simp only [hpt, if_false] at hx
        exact absurd hx (hgone p)
    · rw [hgp x hxc]
      exact hwf.parent_of_child p x ((hold p x hxc).mp hx)
  · intro x p hxr hx
    rw [hroot] at hxr
    by_cases hxc : x = ci
    · subst hxc
      rw [getParentItem_of_par _ _ _ hpar] at hx
      cases hx
      rw [hch t]
      simp
    · rw [hgp x hxc] at hx
      exact (hold p x hxc).mpr (hwf.child_of_parent x p hxr hx)
  · intro p
    rw [hch p]
    by_cases hpt : p = t
    · subst hpt
      simp only [if_true]
      apply List.Nodup.append
      · split
        · exact (hwf.nodup q).erase ci
        · exact hwf.nodup p
      · exact List.nodup_singleton ci
      · intro a ha hb
        rw [List.mem_singleton] at hb
        subst hb
        exact hgone p ha
    · simp only [hpt, if_false]
      split
      · exact (hwf.nodup q).erase ci
      · exact hwf.nodup p

theorem onNodeAddedLoop_reparents (model : AnimationModule)
    (hrefresh : model.RefreshKeepsStructure) (t : ItemId) :
    ∀ (cs : List NodeAnim) (w : TreeWidget), w.WellFormed → t ≠ w.rootItem →
      (w.items t).view = true →
      (∀ c ∈ cs, ∃ ci, model.getTreeItem c = some ci ∧ ci ≠ w.rootItem ∧
        (getParentItem w ci).isSome = true ∧ ∀ f, ci ∉ parentChain w f t) →
      ∃ w1, onNodeAddedLoop model t cs w = some w1 ∧ w1.WellFormed ∧
        w1.rootItem = w.rootItem ∧ (w1.items t).view = true ∧
        (∀ c ∈ cs, ∃ ci, model.getTreeItem c = some ci ∧
          (w1.items ci).par = some t ∧ (w1.items ci).expanded = true) ∧
        (∀ x, (w.items x).par = some t ∧ (w.items x).expanded = true →
          (w1.items x).par = some t ∧ (w1.items x).expanded = true) := by
  intro cs
  induction cs with
  | nil => intro w hwf _ hv _; exact ⟨w, rfl, hwf, rfl, hv, by simp, fun _ h => h⟩
  | cons c cs ih =>
    intro w hwf ht hv hcs
    obtain ⟨ci, hci, hcr, hsome, habove⟩ := hcs c (List.mem_cons_self _ _)
    obtain ⟨q, hq⟩ := Option.isSome_iff_exists.mp hsome
    have hcons := onNodeAddedLoop_cons model t c cs w ci q hci hq
    obtain ⟨hroot, _, hpar, hview, hexp, hsame⟩ :=
      onNodeAddedRound_facts model hrefresh t c w ci q hwf hq hcr ht habove
    have hwf2 := onNodeAddedRound_wellFormed model hrefresh t c w ci q hwf hq hcr ht habove
    have hv2 : ((onNodeAddedRound model t c w ci q).items t).view = true := by
      rw [(hsame t habove).2.1]; exact hv
    obtain ⟨w1, hw1, hwf1, hr1, hv1, hdone, hkeep⟩ :=
      ih (onNodeAddedRound model t c w ci q) hwf2 (by rw [hroot]; exact ht) hv2 (by
        intro c1 hc1
        obtain ⟨cj, hcj, hcrj, hsomej, habovej⟩ := hcs c1 (List.mem_cons_of_mem _ hc1)
        refine ⟨cj, hcj, by rw [hroot]; exact hcrj, ?_, ?_⟩
        · exact onNodeAdded_round_hasParent model hrefresh t c w ci q cj ht hsomej
        · intro f
          rw [onNodeAddedRound_parentChain model hrefresh t c w ci q t f (habove f)]
          exact habovej f)
    refine ⟨w1, ?_, hwf1, by rw [hr1, hroot], hv1, ?_, ?_⟩
    · rw [hcons]; exact hw1
    · intro c1 hc1
      rcases List.mem_cons.mp hc1 with h | h
      · subst h
        exact ⟨ci, hci, hkeep ci ⟨hpar, hexp hv⟩⟩
      · exact hdone c1 h
    · intro x hx
      apply hkeep
      by_cases hxc : x = ci
      · subst hxc
        exact ⟨hpar, hexp hv⟩
      · have hxabove : ∀ f, ci ∉ parentChain w f x := by
          intro f
          cases f with
          | zero => simpa [parentChain] using Ne.symm hxc
          | succ f =>
            simp only [parentChain, hx.1, List.mem_cons, not_or]
            exact ⟨Ne.symm hxc, habove f⟩
        rw [(hsame x hxabove).1, (hsame x hxabove).2.2]
        exact hx

/-- Adding a new item below an item of the widget keeps the tree well formed. -/
theorem addChild_fresh_wellFormed (w : TreeWidget) (x t : ItemId) (hwf : w.WellFormed)
    (hfresh : (w.items t).par = none ∧ (w.items t).view = false)
    (hroot : t ≠ w.rootItem) (hx : (w.items x).view = true) :
    (addChild w x t).WellFormed := by
  have hguard : ((w.items t).view || (w.items t).par.isSome) = false := by
    simp [hfresh.1, hfresh.2]
  have hnone : getParentItem w t = none := by
    simp [getParentItem, hfresh.1, hfresh.2]
  have hnot : ∀ p, t ∉ (w.items p).children := by
    intro p hp
    have := hwf.parent_of_child p t hp
    rw [hnone] at this
    cases this
  have hch : ∀ p, ((addChild w x t).items p).children =
      if p = x then (w.items x).children ++ [t] else (w.items p).children := by
    intro p
    rw [addChild_children]
    by_cases hpx : p = x
    · rw [if_pos ⟨hguard, hpx⟩, if_pos hpx]
    · rw [if_neg (fun h => hpx h.2), if_neg hpx]
  have hpar : ((addChild w x t).items t).par = if x = w.rootItem then none else some x := by
    rw [addChild_par]; exact if_pos ⟨hguard, rfl⟩
  have hview : ((addChild w x t).items t).view = (w.items x).view := by
    rw [addChild_view]; exact if_pos ⟨hguard, isInSubtree_self w t⟩
  have hgt : getParentItem (addChild w x t) t = some x := by
    unfold getParentItem
    rw [hpar, hview, addChild_rootItem, hx]
    by_cases hxr : x = w.rootItem
    · rw [if_pos hxr, hxr]; rfl
    · rw [if_neg hxr]
  have hgp : ∀ y, y ≠ t → getParentItem (addChild w x t) y = getParentItem w y := by
    intro y hy
    apply getParentItem_congr_of_par
    · rw [addChild_par, if_neg (fun h => hy h.2)]
    · intro hp
      exact addChild_view_of_par_none w x t y hp hy
    · exact addChild_rootItem w x t
  refine ⟨?_, ?_, ?_⟩
  · intro p y hy
    rw [hch p] at hy
    by_cases hyt : y = t
    · subst hyt
      by_cases hpx : p = x
      · subst hpx; exact hgt
      · simp only [hpx, if_false] at hy
        exact absurd hy (hnot p)
    · rw [hgp y hyt]
      apply hwf.parent_of_child
      by_cases hpx : p = x
      · subst hpx
        simp only [if_true, List.mem_append, List.mem_singleton, hyt, or_false] at hy
        exact hy
      · simpa only [hpx, if_false] using hy
  · intro y p hyr hy
    rw [addChild_rootItem] at hyr
    rw [hch p]
    by_cases hyt : y = t
    · subst hyt
      rw [hgt] at hy
      cases hy
      simp
    · rw [hgp y hyt] at hy
      have := hwf.child_of_parent y p hyr hy
      by_cases hpx : p = x
      · subst hpx
        simp only [if_true, List.mem_append]
        exact Or.inl this
      · simpa only [hpx, if_false] using this
  · intro p
    rw [hch p]
    by_cases hpx : p = x
    · subst hpx
      simp only [if_true]
      apply List.Nodup.append (hwf.nodup p) (List.nodup_singleton t)
      intro a ha hb
      rw [List.mem_singleton] at hb
      subst hb
      exact hnot p ha
    · simp only [hpx, if_false]
      exact hwf.nodup p

theorem parentChain_after_attach (w : TreeWidget) (x t ci : ItemId)
    (hfresh : (w.items t).par = none ∧ (w.items t).view = false)
    (hne : ci ≠ t)
    (hattach : x = w.rootItem ∨ ∀ f, t ∉ parentChain w f x ∧ ci ∉ parentChain w f x) :
    ∀ f, ci ∉ parentChain (addChild w x t) f t := by
  have hguard : ((w.items t).view || (w.items t).par.isSome) = false := by
    simp [hfresh.1, hfresh.2]
  have hpar : ((addChild w x t).items t).par = if x = w.rootItem then none else some x := by
    rw [addChild_par]; exact if_pos ⟨hguard, rfl⟩
  intro f
  cases f with
  | zero => simpa [parentChain] using hne
  | succ f =>
    by_cases hxr : x = w.rootItem
    · rw [parentChain_of_par_none _ _ t (by rw [hpar, if_pos hxr])]
      simpa using hne
    · rcases hattach with h | h
      · exact absurd h hxr
      · simp only [parentChain, hpar, if_neg hxr, List.mem_cons, not_or]
        refine ⟨hne, ?_⟩
        rw [parentChain_congr w (addChild w x t) f x (by
          intro y hy
          have hyt : y ≠ t := fun hh => (h f).1 (hh ▸ hy)
          rw [addChild_par, if_neg (fun hh => hyt hh.2)])]
        exact (h f).2

/-- After a fresh item `t` has been added below an item `x` of the widget that
is not in the subtree of `t` or of the row of a child node, the rest of
`onNodeAdded` succeeds and moves every child item below `t`. -/
theorem onNodeAdded_after_attach_children (model : AnimationModule)
    (hrefresh : model.RefreshKeepsStructure) (node : NodeAnim) (w : TreeWidget) (t x : ItemId)
    (hwf : w.WellFormed) (hchains : w.ParentChainsEnd)
    (hfresh : (w.items t).par = none ∧ (w.items t).view = false)
    (hroot : t ≠ w.rootItem) (hx : model.CanAttachBelow node w t x)
    (hchildren : ∀ c ∈ model.getChildrenNodes node, ∃ ci, model.getTreeItem c = some ci ∧
      ci ≠ t ∧ ci ≠ w.rootItem ∧ (getParentItem w ci).isSome = true) :
    ∃ w1, onNodeAddedLoop model t (model.getChildrenNodes node) (addChild w x t) = some w1 ∧
      (∀ c ∈ model.getChildrenNodes node, ∃ ci, model.getTreeItem c = some ci ∧
        ci ∈ ((setExpanded (model.refreshVisibility node w1) t true).items t).children ∧
        ((setExpanded (model.refreshVisibility node w1) t true).items t).children.count ci = 1 ∧
        (∀ p, ci ∈ ((setExpanded (model.refreshVisibility node w1) t true).items p).children →
          p = t) ∧
        ((setExpanded (model.refreshVisibility node w1) t true).items ci).expanded = true) ∧
      ((setExpanded (model.refreshVisibility node w1) t true).items t).expanded = true := by
  have hguard : ((w.items t).view || (w.items t).par.isSome) = false := by
    simp [hfresh.1, hfresh.2]
  have hwf0 := addChild_fresh_wellFormed w x t hwf hfresh hroot hx.1
  have hv0 : ((addChild w x t).items t).view = true := by
    rw [addChild_view, if_pos ⟨hguard, isInSubtree_self w t⟩]; exact hx.1
  obtain ⟨w1, hw1, hwf1, hr1, hv1, hdone, _⟩ := onNodeAddedLoop_reparents model hrefresh t
    (model.getChildrenNodes node) (addChild w x t) hwf0
    (by rw [addChild_rootItem]; exact hroot) hv0 (by
      intro c hc
      obtain ⟨ci, hci, hne, hcr, hsome⟩ := hchildren c hc
      refine ⟨ci, hci, by rw [addChild_rootItem]; exact hcr,
        addChild_fresh_hasParent w x t ci hne hsome, ?_⟩
      apply parentChain_after_attach w x t ci hfresh hne
      rcases hx.2 with h | ⟨ht, hcs⟩
      · exact Or.inl h
      · right
        intro f
        exact ⟨not_mem_parentChain_of_isInSubtree w t x (hchains x) ht f,
          not_mem_parentChain_of_isInSubtree w ci x (hchains x) (hcs c hc ci hci) f⟩)
  have hchildren1 : ∀ p, ((setExpanded (model.refreshVisibility node w1) t true).items p).children
      = (w1.items p).children := by
    intro p
    rw [setExpanded_children, ((hrefresh node w1).2 p).2.2.1]
  have hvr : ((model.refreshVisibility node w1).items t).view = true := by
    rw [((hrefresh node w1).2 t).2.1]; exact hv1
  refine ⟨w1, hw1, ?_, ?_⟩
  · intro c hc
    obtain ⟨ci, hci, hne, hcr, _⟩ := hchildren c hc
    obtain ⟨cj, hcj, hparj, hexpj⟩ := hdone c hc
    rw [hci] at hcj
    cases hcj
    have hgp := getParentItem_of_par w1 ci t hparj
    have hmem : ci ∈ (w1.items t).children :=
      hwf1.child_of_parent ci t (by rw [hr1, addChild_rootItem]; exact hcr) hgp
    refine ⟨ci, hci, ?_, ?_, ?_, ?_⟩
    · rw [hchildren1]; exact hmem
    · rw [hchildren1]; exact List.count_eq_one_of_mem (hwf1.nodup t) hmem
    · intro p hp
      rw [hchildren1] at hp
      have := hwf1.parent_of_child p ci hp
      rw [hgp] at this
      exact (Option.some.inj this).symm
    · rw [setExpanded_expanded, if_neg (fun h => hne h.1), ((hrefresh node w1).2 ci).2.2.2.1]
      exact hexpj
  · rw [setExpanded_expanded, if_pos ⟨rfl, hvr⟩]

/-- C5: in a well-formed tree whose parent chains end, for a node whose tree
item `t` is new, whose children nodes have tree items of the tree other than
`t`, and whose row is attached under a row of the widget that is not in the
subtree of `t` or of the row of a child node: after `onNodeAdded` the tree item
of every node returned by `getChildrenNodes(node)` is a child of `t`, is listed
there once and by no other item (so it has left its previous parent or the top
level), and is expanded; and `t` is expanded. -/
theorem onNodeAdded_reparents_children (model : AnimationModule)
    (hrefresh : model.RefreshKeepsStructure) (node : NodeAnim) (w : TreeWidget) (t : ItemId)
    (hitem : model.getTreeItem node = some t)
    (hwf : w.WellFormed) (hchains : w.ParentChainsEnd)
    (hfresh : (w.items t).par = none ∧ (w.items t).view = false)
    (hroot : t ≠ w.rootItem)
    (hrootview : (w.items w.rootItem).view = true)
    (htime : ∀ m, model.getNearestTimeNodeFromOutputs node = some m →
      ∃ x, model.getTreeItem m = some x ∧ model.CanAttachBelow node w t x)
    (hgroup : ∀ g, model.getGroupNodeAnim node = some g →
      ∃ x, model.getTreeItem g = some x ∧ model.CanAttachBelow node w t x)
    (hchildren : ∀ c ∈ model.getChildrenNodes node, ∃ ci, model.getTreeItem c = some ci ∧
      ci ≠ t ∧ ci ≠ w.rootItem ∧ (getParentItem w ci).isSome = true) :
    ∃ w1, onNodeAdded model node w = some w1 ∧
      (∀ c ∈ model.getChildrenNodes node, ∃ ci, model.getTreeItem c = some ci ∧
        ci ∈ (w1.items t).children ∧ (w1.items t).children.count ci = 1 ∧
        (∀ p, ci ∈ (w1.items p).children → p = t) ∧ (w1.items ci).expanded = true) ∧
      (w1.items t).expanded = true := by
  cases hm : model.getNearestTimeNodeFromOutputs node with
  | some m =>
    obtain ⟨x, hx, hxv⟩ := htime m hm
    obtain ⟨w1, hw1, h1, h2⟩ := onNodeAdded_after_attach_children model hrefresh node w t x
      hwf hchains hfresh hroot hxv hchildren
    refine ⟨setExpanded (model.refreshVisibility node w1) t true, ?_, h1, h2⟩
    simp [onNodeAdded, hitem, hm, hx, hw1]
  | none =>
    cases hg : model.getGroupNodeAnim node with
    | some g =>
      obtain ⟨x, hx, hxv⟩ := hgroup g hg
      obtain ⟨w1, hw1, h1, h2⟩ := onNodeAdded_after_attach_children model hrefresh node w t x
        hwf hchains hfresh hroot hxv hchildren
      refine ⟨setExpanded (model.refreshVisibility node w1) t true, ?_, h1, h2⟩
      simp [onNodeAdded, hitem, hm, hg, hx, hw1]
    | none =>
      obtain ⟨w1, hw1, h1, h2⟩ := onNodeAdded_after_attach_children model hrefresh node w t
        w.rootItem hwf hchains hfresh hroot ⟨hrootview, Or.inl rfl⟩ hchildren
      refine ⟨setExpanded (model.refreshVisibility node w1) t true, ?_, h1, h2⟩
      simp [onNodeAdded, hitem, hm, hg, addTopLevelItem, hw1]

/-! ### Worked cases on `exampleWidget` -/

theorem exampleModel_refreshKeepsStructure : exampleModel.RefreshKeepsStructure := by
  intro n w
  refine ⟨rfl, fun i => ?_⟩
  by_cases h : i = n.id <;> simp [exampleModel, TreeWidget.modify, h]

theorem exampleWidget_items_of_le (i : ItemId) (h : 7 ≤ i) :
    exampleWidget.items i = detachedItem eAnimatedItemTypeCommon := by
  simp only [exampleWidget]
  exact List.getD_eq_default _ _ (by simpa using h)

theorem exampleWidget_wellFormed : exampleWidget.WellFormed := by
  refine ⟨?_, ?_, ?_⟩
  · intro p x hx
    by_cases hp : p < 7
    · interval_cases p
      · simp [exampleWidget] at hx
        rcases hx with h | h <;> subst h <;> rfl
      · simp [exampleWidget] at hx
        rcases hx with h | h | h <;> subst h <;> rfl
      all_goals simp [exampleWidget, detachedItem] at hx
    · rw [exampleWidget_items_of_le p (Nat.le_of_not_lt hp)] at hx
      simp [detachedItem] at hx
  · intro x p hxr hx
    by_cases hx7 : x < 7
    · interval_cases x
      all_goals first
        | exact absurd rfl hxr
        | (simp [getParentItem, exampleWidget, detachedItem] at hx; subst hx; decide)
        | simp [getParentItem, exampleWidget, detachedItem] at hx
    · simp [getParentItem, exampleWidget_items_of_le x (Nat.le_of_not_lt hx7), detachedItem] at hx
  · intro p
    by_cases hp : p < 7
    · interval_cases p <;> simp [exampleWidget, detachedItem]
    · rw [exampleWidget_items_of_le p (Nat.le_of_not_lt hp)]
      simp [detachedItem]

theorem exampleWidget_parentChainsEnd : exampleWidget.ParentChainsEnd := by
  intro x
  show (completeParentChain exampleWidget 7 x).isSome = true
  by_cases hx : x < 7
  · interval_cases x <;> decide
  · simp [completeParentChain, exampleWidget_items_of_le x (Nat.le_of_not_lt hx), detachedItem]

/-- C3, worked case: removing the group node 1 of `exampleWidget`, a top-level
item, moves its node rows 3 and 4 to the top level behind 5, leaves its knob
row 2 below it and takes 1 off the top level. -/
theorem onNodeAboutToBeRemoved_moves_node_children_witness :
    ∃ w1, onNodeAboutToBeRemoved exampleModel (some { id := 1 }) exampleWidget = some w1 ∧
      (w1.items 0).children = (exampleWidget.items 0).children.erase 1 ++
        (exampleWidget.items 1).children.filter
          (fun c => decide ((exampleWidget.items c).contextType ∈
            [eAnimatedItemTypeGroup, eAnimatedItemTypeFrameRange, eAnimatedItemTypeCommon,
              eAnimatedItemTypeReader, eAnimatedItemTypeRetime,
              eAnimatedItemTypeTimeOffset])) ∧
      (∀ c ∈ (exampleWidget.items 1).children,
        (exampleWidget.items c).contextType ∈
          [eAnimatedItemTypeGroup, eAnimatedItemTypeFrameRange, eAnimatedItemTypeCommon,
            eAnimatedItemTypeReader, eAnimatedItemTypeRetime, eAnimatedItemTypeTimeOffset] →
        c ∈ (w1.items 0).children) ∧
      (∀ c ∈ (exampleWidget.items 1).children,
        (exampleWidget.items c).contextType ∈
          [eAnimatedItemTypeTableItemAnimation, eAnimatedItemTypeKnobDim,
            eAnimatedItemTypeKnobRoot, eAnimatedItemTypeKnobView,
            eAnimatedItemTypeTableItemRoot] →
        c ∈ (w1.items 1).children) ∧
      1 ∉ (w1.items 0).children :=
  onNodeAboutToBeRemoved_moves_node_children exampleModel exampleModel_refreshKeepsStructure
    { id := 1 } exampleWidget 1 0 rfl rfl (by decide) (by decide) (by decide) (by decide)
    (by decide)

/-- C4, worked case: the new retime node 6 of `exampleWidget` has no time node
downstream and is in the group 1, so its row becomes a child of the row 1. -/
theorem onNodeAdded_parent_witness :
    ∃ w1, onNodeAdded exampleModel { id := 6 } exampleWidget = some w1 ∧
      (∀ m, exampleModel.getNearestTimeNodeFromOutputs { id := 6 } = some m →
        ∃ x, exampleModel.getTreeItem m = some x ∧ 6 ∈ (w1.items x).children) ∧
      (exampleModel.getNearestTimeNodeFromOutputs { id := 6 } = none →
        ∀ g, exampleModel.getGroupNodeAnim { id := 6 } = some g →
          ∃ x, exampleModel.getTreeItem g = some x ∧ 6 ∈ (w1.items x).children) ∧
      (exampleModel.getNearestTimeNodeFromOutputs { id := 6 } = none →
        exampleModel.getGroupNodeAnim { id := 6 } = none →
        6 ∈ (w1.items exampleWidget.rootItem).children ∧ (w1.items 6).par = none) :=
  onNodeAdded_parent exampleModel exampleModel_refreshKeepsStructure { id := 6 } exampleWidget 6
    rfl (by decide) (by decide)
    (by intro m hm; simp [exampleModel] at hm)
    (by intro g hg; simp [exampleModel] at hg; subst hg; rfl)
    (by
      intro c hc
      simp [exampleModel] at hc
      subst hc
      exact ⟨3, rfl, by decide, by decide⟩)

/-- C5, worked case: adding the retime node 6 to `exampleWidget`, whose row is
attached under the top-level group row 1, moves the row 3 of its child node from
below the group 1 to below 6, where it is listed once, and expands both rows. -/
theorem onNodeAdded_reparents_children_witness :
    ∃ w1, onNodeAdded exampleModel { id := 6 } exampleWidget = some w1 ∧
      (∀ c ∈ exampleModel.getChildrenNodes { id := 6 }, ∃ ci,
        exampleModel.getTreeItem c = some ci ∧
        ci ∈ (w1.items 6).children ∧ (w1.items 6).children.count ci = 1 ∧
        (∀ p, ci ∈ (w1.items p).children → p = 6) ∧ (w1.items ci).expanded = true) ∧
      (w1.items 6).expanded = true :=
  onNodeAdded_reparents_children exampleModel exampleModel_refreshKeepsStructure { id := 6 }
    exampleWidget 6 rfl exampleWidget_wellFormed exampleWidget_parentChainsEnd (by decide)
    (by decide) (by decide)
    (by intro m hm; simp [exampleModel] at hm)
    (by
      intro g hg
      simp [exampleModel] at hg
      subst hg
      refine ⟨1, rfl, by decide, Or.inr ⟨by decide, ?_⟩⟩
      intro c hc ci hci
      simp [exampleModel] at hc
      subst hc
      simp [exampleModel] at hci
      subst hci
      decide)
    (by
      intro c hc
      simp [exampleModel] at hc
      subst hc
      exact ⟨3, rfl, by decide, by decide, by decide⟩)

/-- C10, worked case: node 9 has no tree item, and removing it leaves
`exampleWidget` as it is. -/
theorem onNodeAboutToBeRemoved_null_witness :
    onNodeAboutToBeRemoved exampleModel (some { id := 9 }) exampleWidget = some exampleWidget :=
  onNodeAboutToBeRemoved_null exampleModel (some { id := 9 }) exampleWidget
    (Or.inr ⟨{ id := 9 }, rfl, rfl⟩)

/-! ### Parents examined by the selection model -/

theorem collectParentItems_eq (top : List TreeItem) (findItem : ItemPtr → FindItemResult) :
    ∀ (row : Nat) (parent : ItemPtr), (itemAt top (row :: parent)).isSome = true →
      collectParentItems top findItem (row :: parent) =
        upToFirstNode (fun a => (findItem a).isNodeItem.isSome)
          ((row :: parent) :: properAncestors (row :: parent)) := by
  intro row parent
  induction parent generalizing row with
  | nil =>
    intro h
    simp [collectParentItems, getTreeItemForModelIndex, h, upToFirstNode, properAncestors]
  | cons r p ih =>
    intro h
    have hp := itemAt_parent_isSome top row (r :: p) h (by simp)
    have ih1 := ih r hp
    rw [collectParentItems]
    simp only [getTreeItemForModelIndex, h, if_true, ne_eq, reduceCtorEq, not_false_eq_true]
    rw [ih1]
    simp only [upToFirstNode, properAncestors, reduceCtorEq, if_false]
    split <;> rfl

/-- C14: in `checkParentsSelectedStates`, for an index whose parent is an item
of the tree, the parent items that are collected, and then examined, are the
ancestors of the index in order from its immediate parent, up to and including
the first one that resolves to a node (all of them when none does); the
ancestors above that node are not in the list.  The collecting loop is a total
function: it follows the parent chain of a finite tree. -/
theorem checkParentsSelectedStates_parentItems (top : List TreeItem)
    (findItem : ItemPtr → FindItemResult) (index : ItemPtr)
    (hparent : (itemAt top index.tail).isSome = true) :
    collectParentItems top findItem index.tail =
      upToFirstNode (fun a => (findItem a).isNodeItem.isSome) (properAncestors index) ∧
    ∀ (flags : SelectionFlags) (unitedSelection finalSelection : QItemSelection),
      checkParentsSelectedStates top findItem index flags unitedSelection finalSelection =
        ((upToFirstNode (fun a => (findItem a).isNodeItem.isSome) (properAncestors index)).foldl
          (checkParentsStep top index flags) (finalSelection, unitedSelection)).1 := by
  have hmain : collectParentItems top findItem index.tail =
      upToFirstNode (fun a => (findItem a).isNodeItem.isSome) (properAncestors index) := by
    cases index with
    | nil => simp [itemAt] at hparent
    | cons row parent =>
      cases parent with
      | nil => simp [itemAt] at hparent
      | cons r p =>
        simp only [List.tail_cons] at hparent ⊢
        rw [collectParentItems_eq top findItem r p hparent]
        simp [properAncestors]
  refine ⟨hmain, ?_⟩
  intro flags unitedSelection finalSelection
  simp only [checkParentsSelectedStates, hmain]

/-- C14, worked case: below the node row `[0]` of `nodeWithKnob`, the knob row
`[0, 0]` has the single parent item `[0]` to examine. -/
theorem checkParentsSelectedStates_parentItems_witness :
    collectParentItems nodeWithKnob nodeWithKnobFindItem ([0, 0] : ItemPtr).tail =
      upToFirstNode (fun a => (nodeWithKnobFindItem a).isNodeItem.isSome)
        (properAncestors [0, 0]) ∧
    ∀ (flags : SelectionFlags) (unitedSelection finalSelection : QItemSelection),
      checkParentsSelectedStates nodeWithKnob nodeWithKnobFindItem [0, 0] flags unitedSelection
          finalSelection =
        ((upToFirstNode (fun a => (nodeWithKnobFindItem a).isNodeItem.isSome)
          (properAncestors [0, 0])).foldl
          (checkParentsStep nodeWithKnob [0, 0] flags) (finalSelection, unitedSelection)).1 :=
  checkParentsSelectedStates_parentItems nodeWithKnob nodeWithKnobFindItem [0, 0] (by decide)

/-! ### Branch geometry -/

/-- C15 (as amended): `getArrowRect` returns `branchRect` unchanged for a
top-level item; for an item with a parent it returns the rectangle with the top
and height of `branchRect`, its left edge at the left of the visual rectangle of
the parent, and its width equal to `branchRect.right()` minus that left edge, so
that its right edge is one less than the right edge of `branchRect`. -/
theorem getArrowRect_spec (visualItemRect : ItemPtr → QRect) (item : ItemPtr)
    (branchRect : QRect) :
    (item.tail = [] → getArrowRect visualItemRect item branchRect = branchRect) ∧
    (item.tail ≠ [] →
      (getArrowRect visualItemRect item branchRect).top = branchRect.top ∧
      (getArrowRect visualItemRect item branchRect).height = branchRect.height ∧
      (getArrowRect visualItemRect item branchRect).left = (visualItemRect item.tail).left ∧
      (getArrowRect visualItemRect item branchRect).width =
        branchRect.right - (visualItemRect item.tail).left ∧
      (getArrowRect visualItemRect item branchRect).right = branchRect.right - 1) := by
  refine ⟨fun h => by simp [getArrowRect, h], fun h => ?_⟩
  simp only [getArrowRect, h, if_false, QRect.top, QRect.height, QRect.left, QRect.width,
    QRect.right]
  refine ⟨trivial, trivial, trivial, trivial, ?_⟩
  omega

/-- C15, counterexample to "its right edge equal to branchRect's right edge":
for the row `[0, 0]`, whose parent starts at x = 20, and the branch rectangle
`QRect(0, 0, 40, 20)` with right edge 39, the arrow rectangle is
`QRect(20, 0, 19, 20)`, with right edge 38. -/
theorem getArrowRect_right_edge :
    ([0, 0] : ItemPtr).tail ≠ [] ∧
    getArrowRect (fun p => { x := 20 * (p.length : Int), y := 0, w := 100, h := 20 }) [0, 0]
      { x := 0, y := 0, w := 40, h := 20 } = { x := 20, y := 0, w := 19, h := 20 } ∧
    (getArrowRect (fun p => { x := 20 * (p.length : Int), y := 0, w := 100, h := 20 }) [0, 0]
      { x := 0, y := 0, w := 40, h := 20 }).right ≠
      ({ x := 0, y := 0, w := 40, h := 20 } : QRect).right := by
  decide

/-! ### Painting a row -/

/-- When the parent of the tree item of `parentNode` resolves to a node, every
round of the loop of `drawParentContainerContour` starts the next one. -/
theorem drawParentContainerContourLoop_outOfFuel (ctx : PaintContext) (parentNode : NodeAnim)
    (itemRect : QRect) (g : NodeGui) (m : NodeAnim)
    (hgui : ctx.getNodeGui parentNode = some g)
    (hitem : ctx.getTreeItem parentNode ≠ [])
    (hparent : (ctx.getTreeItem parentNode).tail ≠ [])
    (hfound : (ctx.findItem (ctx.getTreeItem parentNode).tail).found = true)
    (hnode : (ctx.findItem (ctx.getTreeItem parentNode).tail).isNodeItem = some m) :
    ∀ (fuel : Nat) (nodeIt : NodeAnim) (calls : List PaintCall),
      drawParentContainerContourLoop ctx parentNode itemRect fuel (some nodeIt) calls =
        Outcome.outOfFuel := by
  intro fuel
  induction fuel with
  | zero => intro nodeIt calls; rfl
  | succ fuel ih =>
    intro nodeIt calls
    simp only [drawParentContainerContourLoop, hgui, hitem, if_false, ne_eq, hparent,
      not_false_eq_true, if_true, hfound, hnode]
    exact ih m _

/-- C11, the code at the failing input: the node 2 of `groupWithNode` is the row
`[0, 0]` inside the group row `[0]`.  The contour of the specification has two
rectangles, one at the node in the colour of the node and one at the group in
the colour of the group.  `drawParentContainerContour` reads the colour and the
tree item of `parentNode` in every round instead of those of `nodeIt`, so each
round finds the group again: for every bound on the number of rounds the loop
has not ended.  For the top-level group node 1 the loop ends after one round. -/
theorem drawParentContainerContour_does_not_terminate :
    contourRectsOfSpec nestedContext { x := 40, y := 20, w := 100, h := 20 } [0, 0]
        (nestedNodeGui { id := 2 }).currentColor =
      [PaintCall.fillRect { x := 20, y := 20, w := 19, h := 20 } { rgb := 2, alpha := 255 },
       PaintCall.fillRect { x := 0, y := 20, w := 20, h := 20 } { rgb := 1, alpha := 255 }] ∧
    (∀ fuel : Nat,
      drawParentContainerContour nestedContext fuel (some { id := 2 })
        { x := 40, y := 20, w := 100, h := 20 } = Outcome.outOfFuel) ∧
    drawParentContainerContour nestedContext 1 (some { id := 1 })
        { x := 20, y := 0, w := 100, h := 20 } =
      Outcome.done
        [PaintCall.fillRect { x := 0, y := 0, w := 20, h := 20 } { rgb := 1, alpha := 255 }] := by
  refine ⟨by decide, ?_, by decide⟩
  intro fuel
  exact drawParentContainerContourLoop_outOfFuel nestedContext { id := 2 } _
    (nestedNodeGui { id := 2 }) { id := 1 } rfl (by decide) (by decide) rfl rfl fuel _ _

/-- C12, the code at the failing input: for a node without a `NodeGui` the
`else` branch calls `getSettingPanel()` on the null pointer.  For a node with a
`NodeGui` the function returns, and the viewers are redrawn exactly when the
panel is non-null and the `NodeGui` is visible. -/
theorem openSettingsPanelForNode_null_gui :
    (∀ node : NodeAnim,
      openSettingsPanelForNode (fun _ => none) node = Outcome.nullDereference) ∧
    (∀ (g : NodeGui) (node : NodeAnim), ∃ calls,
      openSettingsPanelForNode (fun _ => some g) node = Outcome.done calls ∧
      (PanelCall.redrawAllViewers ∈ calls ↔
        ((match g.parentMultiInstance with
          | some parentPanel => parentPanel
          | none => g.settingPanel).isSome = true ∧ g.isVisible = true))) := by
  refine ⟨fun node => rfl, ?_⟩
  intro g node
  obtain ⟨color, icon, panel, parent, vis, spv, bec⟩ := g
  cases parent with
  | none =>
    cases panel <;> cases vis <;> cases spv <;> cases bec <;>
      simp [openSettingsPanelForNode]
  | some pp =>
    cases pp <;> cases vis <;> cases spv <;> cases bec <;>
      simp [openSettingsPanelForNode]

/-- When `findItem` yields no knob, no table item and no node, `drawRow` passes
a null closest enclosing node to `drawBranch`, which dereferences it. -/
theorem drawRow_nullDereference_of_unresolved (ctx : PaintContext) (top : List TreeItem)
    (fuel : Nat) (rowRect : QRect) (index : ItemPtr)
    (hknob : (ctx.findItem (getTreeItemForModelIndex top index)).isKnob = none)
    (htable : (ctx.findItem (getTreeItemForModelIndex top index)).isTableItem = none)
    (hnode : (ctx.findItem (getTreeItemForModelIndex top index)).isNodeItem = none) :
    drawRow ctx top fuel rowRect index = Outcome.nullDereference := by
  simp [drawRow, closestEnclosingNodeOf, hknob, htable, hnode, drawParentContainerContour,
    drawBranch]

/-- C13, the code at the failing input: with an animation module that resolves
no row (`findItem` returns false), `drawRow` on any row of `groupWithNode` has a
null closest enclosing node; the contour loop is skipped, and `drawBranch` then
calls `getTreeItem()` on the null pointer. -/
theorem drawRow_unresolved_item :
    (unresolvedContext.findItem [0]).found = false ∧
    (∀ fuel : Nat,
      drawParentContainerContour unresolvedContext fuel none
        { x := 20, y := 0, w := 100, h := 20 } = Outcome.done []) ∧
    drawBranch unresolvedContext groupWithNode { x := 0, y := 0, w := 20, h := 20 } none
      QColor.invalid [0] = Outcome.nullDereference ∧
    (∀ (fuel : Nat) (rowRect : QRect) (index : ItemPtr),
      drawRow unresolvedContext groupWithNode fuel rowRect index = Outcome.nullDereference) := by
  refine ⟨rfl, fun _ => rfl, rfl, ?_⟩
  intro fuel rowRect index
  exact drawRow_nullDereference_of_unresolved unresolvedContext groupWithNode fuel rowRect index
    rfl rfl rfl

end Natron
